import Mathlib

/-!
Shallow embedding of banks/go-immutable-radix: an immutable Adaptive Radix
Tree (ART) over byte-string keys, with copy-on-write transactions.

The Go heap is modelled explicitly: every node lives in an association list
`Heap α` keyed by its `id` field (`nodeHeader.id`), and a `Txn α` carries the
heap together with the transaction fields of the source's `Txn` struct
(`maxRootID`, `root`, `maxSnapID`, `snap`, `size`, `trackMutate`,
`mutateSet`).  In-place mutation of a Go node becomes `hSet` at that node's
id; pointer values become `Option Nat` (Go `nil` is `none`).  Operations
that can hit a Go runtime panic (nil dereference, index out of range, slice
bounds, `panic("invalid type")`) return `Option`, with `none` for the panic.

The repository holds two drafts of several files.  The embedding follows the
later draft — the one whose node model (`innerNodeHeader` embedding
`nodeHeader`, `nChildren`/`prefixLen` as `uint16`, an inner-leaf slot) is
the one all the repository's tests compile against: `tree.go` (second
half), the node model in the second half of `dump_test.go`, `node4.go`
(both node4 and node48), `node16.go` and the first half of `node256.go`.

Bytes are `Nat` (no byte arithmetic in the modelled code can overflow: the
only `byte(...)` casts are of slot counts bounded by 49, and the only
`uint16(...)` casts are of prefix lengths bounded by 10).  Fixed Go arrays
(`[4]byte`, `[48]*nodeHeader`, ...) are lists of the corresponding length;
reads that Go bounds-guards by the array's fixed size use `getD`, writes at
computed positions go through the checked `setAt?`.
-/

set_option autoImplicit false

namespace Art

/-- The fields of the source's `innerNodeHeader` besides the embedded
`nodeHeader` (whose `id` is the heap key and whose `typ` is the `Node`
constructor): the optional inner leaf, the logical prefix length, the child
count, and the 10-byte inline prefix buffer. -/
structure Inner where
  leaf : Option Nat
  prefixLen : Nat
  nChildren : Nat
  pfx : List Nat
  deriving DecidableEq, Repr

/-- A heap node: a leaf (`leafNode`) or one of the four inner shapes
(`node4`, `node16`, `node48`, `node256`), the constructor playing the part
of the `typ` tag. `node4`/`node16` carry a sorted byte index and a child
array of the same capacity; `node48` carries a 256-entry index of
`slot+1`-or-`0` and 48 child slots; `node256` carries 256 child slots. -/
inductive Node (α : Type) where
  | leaf (key : List Nat) (value : α)
  | n4 (ih : Inner) (index : List Nat) (children : List (Option Nat))
  | n16 (ih : Inner) (index : List Nat) (children : List (Option Nat))
  | n48 (ih : Inner) (index : List Nat) (children : List (Option Nat))
  | n256 (ih : Inner) (children : List (Option Nat))
  deriving DecidableEq

/-- The Go heap, restricted to ART nodes: node contents keyed by id. -/
abbrev Heap (α : Type) := List (Nat × Node α)

variable {α : Type}

/-- Look a node up by id. -/
def hFind : Heap α → Nat → Option (Node α)
  | [], _ => none
  | (j, n) :: t, i => if j = i then some n else hFind t i

/-- Store a node under an id (overwriting any previous binding). -/
def hSet : Heap α → Nat → Node α → Heap α
  | [], i, n => [(i, n)]
  | (j, m) :: t, i, n => if j = i then (i, n) :: t else (j, m) :: hSet t i n

/-- `longestPrefix` (dump_test.go): length of the shared prefix of two byte
strings. -/
def longestPrefix : List Nat → List Nat → Nat
  | a :: as, b :: bs => if a = b then longestPrefix as bs + 1 else 0
  | _, _ => 0

/-- Result of Go `copy(dst, src)`: the first `min (len src) (len dst)`
elements come from `src`, the tail of `dst` is kept. -/
def goCopy (dst src : List Nat) : List Nat :=
  src.take (min src.length dst.length) ++ dst.drop (min src.length dst.length)

/-- Go `insertIndex` / `insertChild` on the slice `arr[0:used]` of a fixed
array: insert `x` at position `pos` among the first `used` entries, shifting
them up by one; entries at positions past `used` are unchanged. -/
def goInsertAt {β : Type} (arr : List β) (used pos : Nat) (x : β) : List β :=
  (arr.take used).take pos ++ [x] ++ (arr.take used).drop pos ++ arr.drop (used + 1)

/-- Go `removeByteIndex` / `removeChild` on `arr[0:used]`: shift the entries
after `pos` down by one and zero the slot `used - 1`; entries at positions
`used` and past are unchanged. -/
def goRemoveAt {β : Type} (arr : List β) (used pos : Nat) (zero : β) : List β :=
  arr.take pos ++ (arr.take used).drop (pos + 1) ++ [zero] ++ arr.drop used

/-- Checked fixed-array write: Go `arr[i] = x`, `none` on index out of
range (a Go runtime panic). -/
def setAt? {β : Type} (l : List β) (i : Nat) (x : β) : Option (List β) :=
  if i < l.length then some (l.set i x) else none

/-- The loop of Go's `sort.Search` on the interval `[i, j)`.  The fuel
argument only makes the recursion structural: the interval shrinks by at
least one element per step, so the interval's initial width (supplied by
`sortSearch`) always suffices. -/
def sortSearchGo (f : Nat → Bool) : Nat → Nat → Nat → Nat
  | 0, i, _ => i
  | Nat.succ fl, i, j =>
    if i < j then
      let m := (i + j) / 2
      if f m then sortSearchGo f fl i m else sortSearchGo f fl (m + 1) j
    else i

/-- Go `sort.Search(n, f)`: the least index in `[0, n)` satisfying `f`
(for a monotone `f`), or `n`. -/
def sortSearch (n : Nat) (f : Nat → Bool) : Nat :=
  sortSearchGo f n 0 n

/-- `node4.indexOf` (also the linear scan behind `node4.findChild`): the
first position `< nChildren` whose index byte equals `c`. -/
def scanIndex (index : List Nat) (nCh : Nat) (c : Nat) : Option Nat :=
  (List.range nCh).find? (fun i => index.getD i 0 == c)

/-- `node16.indexOf`: binary search for `c` over `index[0:nChildren]`, then
an equality check. -/
def n16IndexOf (index : List Nat) (nCh : Nat) (c : Nat) : Option Nat :=
  let idx := sortSearch nCh (fun i => c ≤ index.getD i 0)
  if idx < nCh ∧ index.getD idx 0 = c then some idx else none

/-- The insertion-position loop of `node4.addChild`: the number of leading
index bytes (among the first `nCh`) up to the first one greater than `c`. -/
def n4InsertPos (index : List Nat) (nCh : Nat) (c : Nat) : Nat :=
  ((List.range nCh).find? (fun i => c < index.getD i 0)).getD nCh

/-- The grow loop of `node4.addChild` (node4.go): walk the four index slots
copying children into the new node16 in order, inserting the new child just
before the first index byte greater than `c`.  Faithfully to the source, if
`c` is greater than every existing index byte the new child is never
written.  Returns the node16's index and child arrays and its child
count. -/
def n4Grow (index : List Nat) (children : List (Option Nat)) (c : Nat)
    (child : Option Nat) : List Nat × List (Option Nat) × Nat :=
  let step : List (Nat × Option Nat) × Bool → Nat × Option Nat →
      List (Nat × Option Nat) × Bool :=
    fun acc p =>
      (((if ¬acc.2 ∧ c < p.1 then acc.1 ++ [(c, child)] else acc.1) ++ [p]),
       acc.2 ∨ c < p.1)
  let out := ((index.zip children).foldl step ([], false)).1
  (out.map Prod.fst ++ List.replicate (16 - out.length) 0,
   out.map Prod.snd ++ List.replicate (16 - out.length) none,
   out.length)

/-- The grow loop of `node16.addChild` (node16.go): copy all sixteen
children into a fresh node48 (index entry `slot+1` under each byte), then
append the new child.  `none` on an out-of-range write. -/
def n16Grow (index : List Nat) (children : List (Option Nat)) (c : Nat)
    (child : Option Nat) : Option (List Nat × List (Option Nat) × Nat) := do
  let init : List Nat × List (Option Nat) × Nat :=
    (List.replicate 256 0, List.replicate 48 none, 0)
  let acc ← (index.zip children).foldlM (fun acc p => do
    let i48 ← setAt? acc.1 p.1 (acc.2.2 + 1)
    let c48 ← setAt? acc.2.1 acc.2.2 p.2
    pure (i48, c48, acc.2.2 + 1)) init
  let i48 ← setAt? acc.1 c (acc.2.2 + 1)
  let c48 ← setAt? acc.2.1 acc.2.2 child
  pure (i48, c48, acc.2.2 + 1)

/-- The grow loop of `node48.addChild` (node4.go, second part): copy every
child with a non-zero index entry into a fresh node256 under its byte, then
install the new child. -/
def n48Grow (index : List Nat) (children : List (Option Nat)) (c : Nat)
    (child : Option Nat) : Option (List (Option Nat) × Nat) := do
  let init : List (Option Nat) × Nat := (List.replicate 256 none, 0)
  let acc ← index.enum.foldlM (fun acc p => do
    if 0 < p.2 then
      match children.get? (p.2 - 1) with
      | none => none
      | some v => do
        let c256 ← setAt? acc.1 p.1 v
        pure (c256, acc.2 + 1)
    else
      pure acc) init
  let c256 ← setAt? acc.1 c child
  pure (c256, acc.2 + 1)

/-- The 48-to-16 conversion loop of `node48.removeChild` (node4.go, second
part): for every remaining byte `childC` with a non-zero index entry the
source writes `n16.children[childC] = n.children[offset-1]` — the *byte
value* indexes the 16-slot child array (an out-of-range write, hence a Go
panic, whenever a remaining edge byte is 16 or more) and the node16's
`index` array is never written at all.  Returns the node16's child array
and child count. -/
def n48ShrinkTo16 (index : List Nat) (children : List (Option Nat)) (c : Nat) :
    Option (List (Option Nat) × Nat) := do
  let init : List (Option Nat) × Nat := (List.replicate 16 none, 0)
  index.enum.foldlM (fun acc p => do
    if 0 < p.2 ∧ p.1 ≠ c then
      match children.get? (p.2 - 1) with
      | none => none
      | some v => do
        let c16 ← setAt? acc.1 p.1 v
        pure (c16, acc.2 + 1)
    else
      pure acc) init

/-- The 16-to-4 conversion loop of `node16.removeChild` (node16.go): copy
the children other than `c` into a fresh node4 in index order. -/
def n16ShrinkTo4 (index : List Nat) (children : List (Option Nat)) (nCh c : Nat) :
    Option (List Nat × List (Option Nat) × Nat) := do
  let init : List Nat × List (Option Nat) × Nat :=
    (List.replicate 4 0, List.replicate 4 none, 0)
  (index.take nCh).enum.foldlM (fun acc p => do
    if p.2 = c then
      pure acc
    else
      match children.get? p.1 with
      | none => none
      | some v => do
        let i4 ← setAt? acc.1 acc.2.2 p.2
        let c4 ← setAt? acc.2.1 acc.2.2 v
        pure (i4, c4, acc.2.2 + 1)) init

/-- The 256-to-48 conversion loop of `node256.removeChild` (node256.go):
copy every present child other than `c` into a fresh node48. -/
def n256ShrinkTo48 (children : List (Option Nat)) (c : Nat) :
    Option (List Nat × List (Option Nat) × Nat) := do
  let init : List Nat × List (Option Nat) × Nat :=
    (List.replicate 256 0, List.replicate 48 none, 0)
  children.enum.foldlM (fun acc p =>
    match p.2 with
    | none => pure acc
    | some v =>
      if p.1 ≠ c then do
        let i48 ← setAt? acc.1 p.1 (acc.2.2 + 1)
        let c48 ← setAt? acc.2.1 acc.2.2 (some v)
        pure (i48, c48, acc.2.2 + 1)
      else
        pure acc) init

/-- The transaction (`Txn` in tree.go), with the ambient heap threaded
through it. -/
structure Txn (α : Type) where
  maxRootID : Nat
  root : Option Nat
  maxSnapID : Nat
  snap : Option Nat
  size : Nat
  trackMutate : Bool
  mutateSet : List Nat
  heap : Heap α
  deriving DecidableEq

/-- A zero-valued `innerNodeHeader`, as allocated by the `Txn.newNodeX`
constructors. -/
def zeroInner : Inner :=
  { leaf := none, prefixLen := 0, nChildren := 0, pfx := List.replicate 10 0 }

/-- `Txn.nextID`: bump `maxRootID` and use it as the fresh id. -/
def nextID (t : Txn α) : Txn α × Nat :=
  ({ t with maxRootID := t.maxRootID + 1 }, t.maxRootID + 1)

/-- `Txn.newNode4`: allocate a zero-valued node4 under a fresh id. -/
def newNode4 (t : Txn α) : Txn α × Nat :=
  let p := nextID t
  ({ p.1 with heap := (hSet p.1.heap p.2
      (Node.n4 zeroInner (List.replicate 4 0) (List.replicate 4 none))) }, p.2)

/-- `Txn.newNode16`: allocate a zero-valued node16 under a fresh id. -/
def newNode16 (t : Txn α) : Txn α × Nat :=
  let p := nextID t
  ({ p.1 with heap := (hSet p.1.heap p.2
      (Node.n16 zeroInner (List.replicate 16 0) (List.replicate 16 none))) }, p.2)

/-- `Txn.newNode48`: allocate a zero-valued node48 under a fresh id. -/
def newNode48 (t : Txn α) : Txn α × Nat :=
  let p := nextID t
  ({ p.1 with heap := (hSet p.1.heap p.2
      (Node.n48 zeroInner (List.replicate 256 0) (List.replicate 48 none))) }, p.2)

/-- `Txn.newNode256`: allocate a zero-valued node256 under a fresh id. -/
def newNode256 (t : Txn α) : Txn α × Nat :=
  let p := nextID t
  ({ p.1 with heap := (hSet p.1.heap p.2
      (Node.n256 zeroInner (List.replicate 256 none))) }, p.2)

/-- `Txn.newLeafNode`: allocate a leaf holding `(k, v)` under a fresh id. -/
def newLeafNode (t : Txn α) (k : List Nat) (v : α) : Txn α × Nat :=
  let p := nextID t
  ({ p.1 with heap := (hSet p.1.heap p.2 (Node.leaf k v)) }, p.2)

/-- `Txn.discard`: record a superseded snapshot id in the mutate set,
ignoring ids of nodes created during the transaction (`id > maxSnapID`). -/
def discard (t : Txn α) (i : Nat) : Txn α :=
  if t.maxSnapID < i then t
  else { t with mutateSet := if t.mutateSet.contains i then t.mutateSet else i :: t.mutateSet }

/-- Dereference a node pointer: `none` for Go `nil` or a dangling id. -/
def readRef (h : Heap α) (r : Option Nat) : Option (Node α) :=
  match r with
  | none => none
  | some i => hFind h i

/-- The inner header of a node, if it is an inner node. -/
def innerOf : Node α → Option Inner
  | Node.leaf _ _ => none
  | Node.n4 ih _ _ => some ih
  | Node.n16 ih _ _ => some ih
  | Node.n48 ih _ _ => some ih
  | Node.n256 ih _ => some ih

/-- `nodeHeader.innerLeaf`: the inner-leaf slot; Go returns `nil` for a
leaf node. -/
def innerLeafOf : Node α → Option Nat
  | Node.leaf _ _ => none
  | Node.n4 ih _ _ => ih.leaf
  | Node.n16 ih _ _ => ih.leaf
  | Node.n48 ih _ _ => ih.leaf
  | Node.n256 ih _ => ih.leaf

/-- Rebuild a node around an updated inner header. -/
def withInner (n : Node α) (ih : Inner) : Node α :=
  match n with
  | Node.leaf k v => Node.leaf k v
  | Node.n4 _ index children => Node.n4 ih index children
  | Node.n16 _ index children => Node.n16 ih index children
  | Node.n48 _ index children => Node.n48 ih index children
  | Node.n256 _ children => Node.n256 ih children

/-- `nodeHeader.setPrefix` (second half of dump_test.go): write `p` into
the inline buffer with Go `copy` — at most the buffer's 10 bytes — and set
`prefixLen` to the number of bytes actually copied,
`min (len p) (len buffer)`. -/
def setPfxInner (ih : Inner) (p : List Nat) : Inner :=
  { ih with prefixLen := min p.length ih.pfx.length, pfx := goCopy ih.pfx p }

/-- `nodeHeader.setPrefix` on a node reference: panics (`none`) on a leaf,
whose `prefixFields` are nil. -/
def setPrefixOp (t : Txn α) (r : Option Nat) (p : List Nat) : Option (Txn α) :=
  match r with
  | none => none
  | some i =>
    match hFind t.heap i with
    | none => none
    | some (Node.leaf _ _) => none
    | some n =>
      match innerOf n with
      | none => none
      | some ih => some { t with heap := (hSet t.heap i (withInner n (setPfxInner ih p))) }

/-- `nodeHeader.leftTrimPrefix` on an inner header: drop the first `l`
bytes of the prefix, shifting the buffer; `none` when the slice
`pBytes[l:pLen]` would be out of range. -/
def leftTrimInner (ih : Inner) (l : Nat) : Option Inner :=
  if l < 1 then some ih
  else if ih.prefixLen ≤ ih.pfx.length then
    let l2 := min l ih.prefixLen
    let newLen := ih.prefixLen - l2
    some { ih with
             prefixLen := newLen,
             pfx := (ih.pfx.take ih.prefixLen).drop l2 ++ ih.pfx.drop newLen }
  else none

/-- `nodeHeader.leftTrimPrefix` on a node reference. -/
def leftTrimOp (t : Txn α) (r : Option Nat) (l : Nat) : Option (Txn α) :=
  match r with
  | none => none
  | some i =>
    match hFind t.heap i with
    | none => none
    | some (Node.leaf _ _) => none
    | some n =>
      match innerOf n with
      | none => none
      | some ih =>
        match leftTrimInner ih l with
        | none => none
        | some ih2 => some { t with heap := (hSet t.heap i (withInner n ih2)) }

/-- `nodeHeader.setInnerLeaf`: store a leaf pointer in the inner-leaf
slot; Go panics on a leaf node (`"invalid type"`). -/
def setInnerLeafOp (t : Txn α) (r : Option Nat) (leafId : Nat) : Option (Txn α) :=
  match r with
  | none => none
  | some i =>
    match hFind t.heap i with
    | none => none
    | some (Node.leaf _ _) => none
    | some n =>
      match innerOf n with
      | none => none
      | some ih => some { t with heap := (hSet t.heap i (withInner n { ih with leaf := some leafId })) }

/-- `nodeHeader.minChild`: the child under the smallest edge byte, or
Go `nil`. -/
def minChildOf : Node α → Option (Option Nat)
  | Node.leaf _ _ => some none
  | Node.n4 ih _ children =>
      if 0 < ih.nChildren then children.get? 0 else some none
  | Node.n16 ih _ children =>
      if 0 < ih.nChildren then children.get? 0 else some none
  | Node.n48 _ index children =>
      match (List.range 256).find? (fun i => 0 < index.getD i 0) with
      | none => some none
      | some i => children.get? (index.getD i 0 - 1)
  | Node.n256 _ children =>
      match (List.range 256).find? (fun i => (children.getD i none).isSome) with
      | none => some none
      | some i => children.get? i

/-- `nodeHeader.prefix`: the node's effective prefix — the buffer's first
`prefixLen` bytes when they fit, otherwise the first `prefixLen` bytes of
the minimum leaf's key.  `none` models the Go panics (called on a leaf, a
nil or non-leaf minimum child in the overflow branch, a slice out of
range). -/
def getPrefix (h : Heap α) (r : Option Nat) : Option (List Nat) :=
  match readRef h r with
  | none => none
  | some n =>
    match innerOf n with
    | none => none
    | some ih =>
      if ih.prefixLen ≤ 10 then
        if ih.prefixLen ≤ ih.pfx.length then some (ih.pfx.take ih.prefixLen) else none
      else
        match minChildOf n with
        | some (some mid) =>
          match hFind h mid with
          | some (Node.leaf key _) =>
            if ih.prefixLen ≤ key.length then some (key.take ih.prefixLen) else none
          | _ => none
        | _ => none

/-- `nodeHeader.findChild`: the child under edge byte `c`, or Go `nil`;
outer `none` is a panic (nil/dangling receiver or an out-of-range child
read). -/
def findChild (h : Heap α) (r : Option Nat) (c : Nat) : Option (Option Nat) :=
  match readRef h r with
  | none => none
  | some (Node.leaf _ _) => some none
  | some (Node.n4 ih index children) =>
    match scanIndex index ih.nChildren c with
    | none => some none
    | some pos => children.get? pos
  | some (Node.n16 ih index children) =>
    match n16IndexOf index ih.nChildren c with
    | none => some none
    | some pos => children.get? pos
  | some (Node.n48 _ index children) =>
    let off := index.getD c 0
    if off = 0 then some none else children.get? (off - 1)
  | some (Node.n256 _ children) => children.get? c

/-- `nodeHeader.copy`: a fresh node with the same contents under a new id.
Faithfully to the source's dispatch, copying a *leaf* returns Go `nil`
(`some (t, none)`), not a copy. -/
def copyNode (t : Txn α) (r : Option Nat) : Option (Txn α × Option Nat) :=
  match r with
  | none => none
  | some i =>
    match hFind t.heap i with
    | none => none
    | some (Node.leaf _ _) => some (t, none)
    | some (Node.n4 ih index children) =>
      let p := newNode4 t
      some ({ p.1 with heap := (hSet p.1.heap p.2 (Node.n4 ih index children)) }, some p.2)
    | some (Node.n16 ih index children) =>
      let p := newNode16 t
      some ({ p.1 with heap := (hSet p.1.heap p.2 (Node.n16 ih index children)) }, some p.2)
    | some (Node.n48 ih index children) =>
      let p := newNode48 t
      some ({ p.1 with heap := (hSet p.1.heap p.2 (Node.n48 ih index children)) }, some p.2)
    | some (Node.n256 ih children) =>
      let p := newNode256 t
      some ({ p.1 with heap := (hSet p.1.heap p.2 (Node.n256 ih children)) }, some p.2)

/-- `Txn.copyIfNeeded`: copy-on-write discriminator — a node from the
snapshot (`id ≤ maxSnapID`) is discarded and copied, a transaction-local
node is returned as-is. -/
def copyIfNeeded (t : Txn α) (r : Option Nat) : Option (Txn α × Option Nat) :=
  match r with
  | none => none
  | some i =>
    if i ≤ t.maxSnapID then copyNode (discard t i) (some i)
    else some (t, some i)

/-- `nodeHeader.addChild`: add a child under edge byte `c`, growing
node4→node16→node48→node256 when full; the caller must adopt the returned
reference.  On a leaf the Go dispatch returns `nil`. -/
def addChild (t : Txn α) (r : Option Nat) (c : Nat) (child : Option Nat) :
    Option (Txn α × Option Nat) :=
  match r with
  | none => none
  | some i =>
    match hFind t.heap i with
    | none => none
    | some (Node.leaf _ _) => some (t, none)
    | some (Node.n4 ih index children) =>
      if ih.nChildren < 4 then
        let pos := n4InsertPos index ih.nChildren c
        some ({ t with heap := (hSet t.heap i
          (Node.n4 { ih with nChildren := ih.nChildren + 1 }
            (goInsertAt index ih.nChildren pos c)
            (goInsertAt children ih.nChildren pos child))) }, some i)
      else
        let g := n4Grow index children c child
        let p := newNode16 t
        some ({ p.1 with heap := (hSet p.1.heap p.2
          (Node.n16 { ih with nChildren := g.2.2 } g.1 g.2.1)) }, some p.2)
    | some (Node.n16 ih index children) =>
      if ih.nChildren < 16 then
        let pos := sortSearch ih.nChildren (fun x => decide (c ≤ index.getD x 0))
        some ({ t with heap := (hSet t.heap i
          (Node.n16 { ih with nChildren := ih.nChildren + 1 }
            (goInsertAt index ih.nChildren pos c)
            (goInsertAt children ih.nChildren pos child))) }, some i)
      else
        match n16Grow index children c child with
        | none => none
        | some g =>
          let p := newNode48 t
          some ({ p.1 with heap := (hSet p.1.heap p.2
            (Node.n48 { zeroInner with
                          prefixLen := ih.prefixLen,
                          pfx := goCopy (List.replicate 10 0) (ih.pfx.take 10),
                          nChildren := g.2.2 } g.1 g.2.1)) }, some p.2)
    | some (Node.n48 ih index children) =>
      if ih.nChildren < 48 then
        match setAt? index c (ih.nChildren + 1), setAt? children ih.nChildren child with
        | some i2, some c2 =>
          some ({ t with heap := (hSet t.heap i
            (Node.n48 { ih with nChildren := ih.nChildren + 1 } i2 c2)) }, some i)
        | _, _ => none
      else
        match n48Grow index children c child with
        | none => none
        | some g =>
          let p := newNode256 t
          some ({ p.1 with heap := (hSet p.1.heap p.2
            (Node.n256 { zeroInner with
                           prefixLen := ih.prefixLen,
                           pfx := goCopy (List.replicate 10 0) (ih.pfx.take 10),
                           nChildren := g.2 } g.1)) }, some p.2)
    | some (Node.n256 ih children) =>
      match setAt? children c child with
      | none => none
      | some c2 =>
        some ({ t with heap := (hSet t.heap i
          (Node.n256 { ih with nChildren := ih.nChildren + 1 } c2)) }, some i)

/-- `nodeHeader.replaceChild`: overwrite the child slot under `c`; a no-op
when the edge is absent (except node256, which writes unconditionally).
The shape never changes. -/
def replaceChild (t : Txn α) (r : Option Nat) (c : Nat) (child : Option Nat) :
    Option (Txn α × Option Nat) :=
  match r with
  | none => none
  | some i =>
    match hFind t.heap i with
    | none => none
    | some (Node.leaf _ _) => some (t, none)
    | some (Node.n4 ih index children) =>
      match scanIndex index ih.nChildren c with
      | none => some (t, some i)
      | some pos =>
        match setAt? children pos child with
        | none => none
        | some c2 => some ({ t with heap := (hSet t.heap i (Node.n4 ih index c2)) }, some i)
    | some (Node.n16 ih index children) =>
      match n16IndexOf index ih.nChildren c with
      | none => some (t, some i)
      | some pos =>
        match setAt? children pos child with
        | none => none
        | some c2 => some ({ t with heap := (hSet t.heap i (Node.n16 ih index c2)) }, some i)
    | some (Node.n48 ih index children) =>
      let off := index.getD c 0
      if off = 0 then some (t, some i)
      else
        match setAt? children (off - 1) child with
        | none => none
        | some c2 => some ({ t with heap := (hSet t.heap i (Node.n48 ih index c2)) }, some i)
    | some (Node.n256 ih children) =>
      match setAt? children c child with
      | none => none
      | some c2 => some ({ t with heap := (hSet t.heap i (Node.n256 ih c2)) }, some i)

/-- `nodeHeader.removeChild`: remove the child under `c` — a no-op when
the edge is absent; shrinks node16→node4 at 5 children, node48→node16 at
17, node256→node48 at 48 or fewer, following the source (including the
shape conversions' slips, see `n48ShrinkTo16`). -/
def removeChild (t : Txn α) (r : Option Nat) (c : Nat) :
    Option (Txn α × Option Nat) :=
  match r with
  | none => none
  | some i =>
    match hFind t.heap i with
    | none => none
    | some (Node.leaf _ _) => some (t, none)
    | some (Node.n4 ih index children) =>
      match scanIndex index ih.nChildren c with
      | none => some (t, some i)
      | some pos =>
        some ({ t with heap := (hSet t.heap i
          (Node.n4 { ih with nChildren := ih.nChildren - 1 }
            (goRemoveAt index ih.nChildren pos 0)
            (goRemoveAt children ih.nChildren pos none))) }, some i)
    | some (Node.n16 ih index children) =>
      match n16IndexOf index ih.nChildren c with
      | none => some (t, some i)
      | some pos =>
        if 5 < ih.nChildren then
          some ({ t with heap := (hSet t.heap i
            (Node.n16 { ih with nChildren := ih.nChildren - 1 }
              (goRemoveAt index ih.nChildren pos 0)
              (goRemoveAt children ih.nChildren pos none))) }, some i)
        else
          match n16ShrinkTo4 index children ih.nChildren c with
          | none => none
          | some g =>
            let p := newNode4 t
            some ({ p.1 with heap := (hSet p.1.heap p.2
              (Node.n4 { zeroInner with
                           prefixLen := ih.prefixLen,
                           pfx := goCopy (List.replicate 10 0) (ih.pfx.take 10),
                           nChildren := g.2.2 } g.1 g.2.1)) }, some p.2)
    | some (Node.n48 ih index children) =>
      let off := index.getD c 0
      if off = 0 then some (t, some i)
      else
        if 16 + 1 < ih.nChildren then
          match setAt? index c 0 with
          | none => none
          | some index1 =>
            let index2 := index1.map (fun e => if off < e then e - 1 else e)
            some ({ t with heap := (hSet t.heap i
              (Node.n48 { ih with nChildren := ih.nChildren - 1 } index2
                (goRemoveAt children ih.nChildren (off - 1) none))) }, some i)
        else
          match n48ShrinkTo16 index children c with
          | none => none
          | some g =>
            let p := newNode16 t
            some ({ p.1 with heap := (hSet p.1.heap p.2
              (Node.n16 { zeroInner with
                            prefixLen := ih.prefixLen,
                            pfx := goCopy (List.replicate 10 0) (ih.pfx.take 10),
                            nChildren := g.2 } (List.replicate 16 0) g.1)) }, some p.2)
    | some (Node.n256 ih children) =>
      if 48 < ih.nChildren then
        match setAt? children c none with
        | none => none
        | some c2 =>
          some ({ t with heap := (hSet t.heap i
            (Node.n256 { ih with nChildren := ih.nChildren - 1 } c2)) }, some i)
      else
        match n256ShrinkTo48 children c with
        | none => none
        | some g =>
          let p := newNode48 t
          some ({ p.1 with heap := (hSet p.1.heap p.2
            (Node.n48 { zeroInner with
                          prefixLen := ih.prefixLen,
                          pfx := goCopy (List.replicate 10 0) (ih.pfx.take 10),
                          nChildren := g.2.2 } g.1 g.2.1)) }, some p.2)

/-- Result of the recursive `Txn.insert`: the updated transaction, the
replacement reference for the visited node, the displaced old value, and
whether an equal key already existed. -/
abbrev InsRes (α : Type) := Txn α × Option Nat × Option α × Bool

/-- `Txn.insert` (tree.go, second half): recursive copy-on-write insertion.
`fuel` only bounds the recursion depth to make the definition structural:
every nested call strictly increases `offset` and requires
`offset < k.length` (it reads `k[offset]` first), so the `k.length + 1`
supplied by `txnInsert` can never run out.  The `goto RECURSE` paths are
merged: when the resolved prefix is empty the source skips the prefix block
and recurses at the same `offset`, which coincides with the
`lcp ≥ len(prefix)` branch for a zero-length prefix.  Faithfully to the
source, the split branch installs the new leaf under `k[lcp]` (not
`k[offset+lcp]`), and the inner-leaf replacement branch re-reads the
original node after `setInnerLeaf`, so for a transaction-local node it
observes the leaf it has just installed. -/
def insertGo : Nat → Txn α → Option Nat → List Nat → α → Nat → Option (InsRes α)
  | 0, _, _, _, _, _ => none
  | Nat.succ fuel, t, r, k, v, offset =>
    match r with
    | none =>
      let p := newLeafNode t k v
      some (p.1, some p.2, none, false)
    | some i =>
      match hFind t.heap i with
      | none => none
      | some (Node.leaf key value) =>
        if key = k then
          let p := newLeafNode t k v
          some (discard p.1 i, some p.2, some value, true)
        else
          if offset ≤ key.length ∧ offset ≤ k.length then
            let p := newNode4 t
            let sid := p.2
            let cpl := longestPrefix (key.drop offset) (k.drop offset)
            match setPrefixOp p.1 (some sid) ((k.drop offset).take cpl) with
            | none => none
            | some t2 =>
              match
                (if offset + cpl = key.length then
                  (setInnerLeafOp t2 (some sid) i).map (fun t3 => (t3, some sid))
                 else
                  match key.get? (offset + cpl) with
                  | none => none
                  | some b => addChild t2 (some sid) b (some i))
              with
              | none => none
              | some (t3, sRef) =>
                let q := newLeafNode t3 k v
                if offset + cpl = k.length then
                  match setInnerLeafOp q.1 sRef q.2 with
                  | none => none
                  | some t5 => some (t5, sRef, none, false)
                else
                  match k.get? (offset + cpl) with
                  | none => none
                  | some b2 =>
                    match addChild q.1 sRef b2 (some q.2) with
                    | none => none
                    | some (t5, sRef2) => some (t5, sRef2, none, false)
          else none
      | some _ =>
        if k.length ≤ offset then
          let p := newLeafNode t k v
          match copyIfNeeded p.1 (some i) with
          | none => none
          | some (t2, nn) =>
            match setInnerLeafOp t2 nn p.2 with
            | none => none
            | some t3 =>
              let t4 := discard t3 i
              match hFind t4.heap i with
              | none => none
              | some n2 =>
                match innerLeafOf n2 with
                | some ol =>
                  let t5 := discard t4 ol
                  match hFind t5.heap ol with
                  | some (Node.leaf _ ov) => some (t5, nn, some ov, true)
                  | _ => none
                | none => some (t4, nn, none, false)
        else
          match getPrefix t.heap (some i) with
          | none => none
          | some pfxList =>
            let lcp := longestPrefix (k.drop offset) pfxList
            if pfxList.length ≤ lcp then
              let off2 := offset + pfxList.length
              match k.get? off2 with
              | none => none
              | some c =>
                match findChild t.heap (some i) c with
                | none => none
                | some (some childId) =>
                  match insertGo fuel t (some childId) k v (off2 + 1) with
                  | none => none
                  | some (t2, newChild, old, ex) =>
                    match copyIfNeeded t2 (some i) with
                    | none => none
                    | some (t3, nn) =>
                      match replaceChild t3 nn c newChild with
                      | none => none
                      | some (t4, nn2) => some (t4, nn2, old, ex)
                | some none =>
                  let p := newLeafNode t k v
                  match copyIfNeeded p.1 (some i) with
                  | none => none
                  | some (t2, nn) =>
                    match addChild t2 nn c (some p.2) with
                    | none => none
                    | some (t3, nn2) => some (discard t3 i, nn2, none, false)
            else
              let p := newNode4 t
              let sid := p.2
              match setPrefixOp p.1 (some sid) ((k.drop offset).take lcp) with
              | none => none
              | some t2 =>
                match copyIfNeeded t2 (some i) with
                | none => none
                | some (t3, nn) =>
                  match leftTrimOp t3 nn lcp with
                  | none => none
                  | some t4 =>
                    match pfxList.get? lcp with
                    | none => none
                    | some b1 =>
                      match addChild t4 (some sid) b1 nn with
                      | none => none
                      | some (t5, sRef) =>
                        let q := newLeafNode t5 k v
                        match k.get? lcp with
                        | none => none
                        | some b2 =>
                          match addChild q.1 sRef b2 (some q.2) with
                          | none => none
                          | some (t6, sRef2) => some (t6, sRef2, none, false)

/-- `Txn.Insert`: run the recursive insert from the working root and adopt
the returned reference as the new root. -/
def txnInsert (t : Txn α) (k : List Nat) (v : α) : Option (Txn α × Option α × Bool) :=
  match insertGo (k.length + 1) t t.root k v 0 with
  | none => none
  | some (t2, newRoot, old, rep) => some ({ t2 with root := newRoot }, old, rep)

/-- `Txn.Get` — a stub in the source: it ignores the tree and returns
`(nil, false)` for every key. -/
def txnGet (t : Txn α) (k : List Nat) : Option α × Bool :=
  (none, false)

/-- `Txn.Delete` — a stub in the source: it returns `(nil, false)` and
leaves the transaction (root, size, heap, mutate set) untouched. -/
def txnDelete (t : Txn α) (k : List Nat) : Txn α × Option α × Bool :=
  (t, none, false)

/-- The immutable `Tree`: root reference, highest allocated id, and element
count. -/
structure Tree where
  root : Option Nat
  maxID : Nat
  size : Nat
  deriving DecidableEq

/-- `Txn.CommitOnly` (and `Txn.Commit`, whose `Notify` is an empty
function): package the working root, `maxRootID` and `size` into a fresh
`Tree`. -/
def txnCommit (t : Txn α) : Tree :=
  { root := t.root, maxID := t.maxRootID, size := t.size }

/-- `New`: the empty tree (the Go zero value). -/
def treeNew : Tree :=
  { root := none, maxID := 0, size := 0 }

/-- `Tree.Len`: the stored element count. -/
def treeLen (t : Tree) : Nat :=
  t.size

/-- `Tree.Txn`: start a transaction — both id bounds are seeded from the
tree's `maxID`, the working root and snapshot root from its root. -/
def treeTxn (h : Heap α) (t : Tree) : Txn α :=
  { maxRootID := t.maxID, root := t.root, maxSnapID := t.maxID, snap := t.root,
    size := t.size, trackMutate := false, mutateSet := [], heap := h }

/-- `Tree.Insert`: a one-shot transaction around `Txn.Insert` and
`Commit`. -/
def treeInsert (h : Heap α) (t : Tree) (k : List Nat) (v : α) :
    Option (Heap α × Tree × Option α × Bool) :=
  match txnInsert (treeTxn h t) k v with
  | none => none
  | some (t2, old, rep) => some (t2.heap, txnCommit t2, old, rep)

/-- `Tree.Get` — a stub in the source: `(nil, false)` for every tree and
key. -/
def treeGet (h : Heap α) (t : Tree) (k : List Nat) : Option α × Bool :=
  (none, false)

/-- `Tree.Delete`: a one-shot transaction around the `Txn.Delete` stub and
`Commit`. -/
def treeDelete (h : Heap α) (t : Tree) (k : List Nat) : Heap α × Tree × Option α × Bool :=
  let p := txnDelete (treeTxn h t) k
  (p.1.heap, txnCommit p.1, p.2.1, p.2.2)

/-- The `typ` tag of a node, with the source's constant values (`typLeaf`,
`typNode4`, `typNode16`, `typNode48`, `typNode256`). -/
def typOf : Node α → Nat
  | Node.leaf _ _ => 0
  | Node.n4 _ _ _ => 1
  | Node.n16 _ _ _ => 2
  | Node.n48 _ _ _ => 3
  | Node.n256 _ _ => 4

/-- The ids a node points to: its non-nil children and its inner leaf. -/
def nodeRefs : Node α → List Nat
  | Node.leaf _ _ => []
  | Node.n4 ih _ children => children.filterMap id ++ ih.leaf.toList
  | Node.n16 ih _ children => children.filterMap id ++ ih.leaf.toList
  | Node.n48 ih _ children => children.filterMap id ++ ih.leaf.toList
  | Node.n256 ih children => children.filterMap id ++ ih.leaf.toList

/-- Reachability through a heap: the ids reachable from a root reference by
following child and inner-leaf pointers. -/
inductive Reach (h : Heap α) (r : Option Nat) : Nat → Prop where
  | root (i : Nat) : r = some i → Reach h r i
  | step {i j : Nat} {n : Node α} : Reach h r i → hFind h i = some n →
      j ∈ nodeRefs n → Reach h r j

/-- Snapshot preservation between two transaction states: the snapshot
bound is unchanged, the id counter has not gone backwards, and every heap
cell at an id at most the snapshot bound is untouched. -/
def Pres (t t2 : Txn α) : Prop :=
  t2.maxSnapID = t.maxSnapID ∧ t.maxRootID ≤ t2.maxRootID ∧
    ∀ i : Nat, i ≤ t.maxSnapID → hFind t2.heap i = hFind t.heap i

/-- Byte strings of the concrete insertion chain behind the prefix-split
scenario: "aabc", "aabd", "aabcxx1", "aabcxx2" build a tree in which the
node for the "xx"/"xy" branch sits at depth 5 with prefix "x"; inserting
"aabcxy9" then reaches it with a prefix mismatch at `lcp = 0`. -/
def kAABC : List Nat := [97, 97, 98, 99]

/-- The byte string "aabd". -/
def kAABD : List Nat := [97, 97, 98, 100]

/-- The byte string "aabcxx1". -/
def kAABCXX1 : List Nat := [97, 97, 98, 99, 120, 120, 49]

/-- The byte string "aabcxx2". -/
def kAABCXX2 : List Nat := [97, 97, 98, 99, 120, 120, 50]

/-- The byte string "aabcxy9". -/
def kAABCXY9 : List Nat := [97, 97, 98, 99, 120, 121, 57]

/-- Thread one `Tree.Insert` through an optional (heap, tree) state. -/
def chainInsert (st : Option (Heap Nat × Tree)) (k : List Nat) (v : Nat) :
    Option (Heap Nat × Tree) :=
  st.bind (fun p => (treeInsert p.1 p.2 k v).map (fun q => (q.1, q.2.1)))

/-- The state after inserting "aabc", "aabd", "aabcxx1", "aabcxx2" and
finally "aabcxy9" into the empty tree. -/
def c5state : Option (Heap Nat × Tree) :=
  chainInsert (chainInsert (chainInsert (chainInsert (chainInsert
    (some ([], treeNew)) kAABC 1) kAABD 2) kAABCXX1 3) kAABCXX2 4) kAABCXY9 5

/-- A transaction holding a full node4 (id 1, children under edge bytes
0, 1, 2, 3 pointing at leaves 2..5) and a detached leaf (id 50) to add;
all ids are transaction-local (`maxSnapID = 0`). -/
def t6c : Txn Nat :=
  { maxRootID := 60, root := some 1, maxSnapID := 0, snap := none, size := 4,
    trackMutate := false, mutateSet := [],
    heap := [(1, Node.n4 { leaf := none, prefixLen := 0, nChildren := 4,
                           pfx := List.replicate 10 0 }
                 [0, 1, 2, 3] [some 2, some 3, some 4, some 5]),
             (2, Node.leaf [0] 0), (3, Node.leaf [1] 1),
             (4, Node.leaf [2] 2), (5, Node.leaf [3] 3),
             (50, Node.leaf [4] 4)] }

/-- The index array of a node48 with children under edge bytes `0..n-1`. -/
def idx48c (n : Nat) : List Nat :=
  (List.range 256).map (fun i => if i < n then i + 1 else 0)

/-- The child array of a node48 whose slot `i` holds leaf id `i + 2` for
`i < n`. -/
def ch48c (n : Nat) : List (Option Nat) :=
  (List.range 48).map (fun i => if i < n then some (i + 2) else none)

/-- A transaction holding a node48 (id 1) with exactly 17 children under
edge bytes 0..16, each pointing at a leaf. -/
def t7c : Txn Nat :=
  { maxRootID := 100, root := some 1, maxSnapID := 0, snap := none, size := 17,
    trackMutate := false, mutateSet := [],
    heap := (1, Node.n48 { leaf := none, prefixLen := 0, nChildren := 17,
                           pfx := List.replicate 10 0 }
                 (idx48c 17) (ch48c 17)) ::
            (List.range 17).map (fun i => (i + 2, Node.leaf [i] i)) }

/-- A transaction holding a freshly allocated empty node4 (id 1). -/
def t8c : Txn Nat :=
  { maxRootID := 1, root := some 1, maxSnapID := 0, snap := none, size := 0,
    trackMutate := false, mutateSet := [],
    heap := [(1, Node.n4 zeroInner (List.replicate 4 0) (List.replicate 4 none))] }

/-- An eleven-byte prefix argument. -/
def p11 : List Nat := [1, 2, 3, 4, 5, 6, 7, 8, 9, 10, 11]

/-- A transaction whose snapshot (ids up to 5) contains a single leaf
(id 1). -/
def t9c : Txn Nat :=
  { maxRootID := 5, root := some 1, maxSnapID := 5, snap := some 1, size := 1,
    trackMutate := false, mutateSet := [],
    heap := [(1, Node.leaf [97] 7)] }

/-- A transaction holding one node of each of the shapes node4 (id 1,
children under bytes 0..3), node16 (id 2, children under bytes 0..4) and
node48 (id 3, children under bytes 0..4); byte 9 has no child edge in any
of them. -/
def t10c : Txn Nat :=
  { maxRootID := 100, root := some 1, maxSnapID := 0, snap := none, size := 3,
    trackMutate := false, mutateSet := [],
    heap := [(1, Node.n4 { leaf := none, prefixLen := 0, nChildren := 4,
                           pfx := List.replicate 10 0 }
                 [0, 1, 2, 3] [some 4, some 4, some 4, some 4]),
             (2, Node.n16 { leaf := none, prefixLen := 0, nChildren := 5,
                            pfx := List.replicate 10 0 }
                 ([0, 1, 2, 3, 4] ++ List.replicate 11 0)
                 (List.replicate 5 (some 4) ++ List.replicate 11 none)),
             (3, Node.n48 { leaf := none, prefixLen := 0, nChildren := 5,
                            pfx := List.replicate 10 0 }
                 (idx48c 5) (ch48c 5)),
             (4, Node.leaf [0] 0)] }

/-- A transaction whose snapshot (ids up to 5) contains an inner node4
(id 1). -/
def t9i : Txn Nat :=
  { maxRootID := 5, root := some 1, maxSnapID := 5, snap := some 1, size := 0,
    trackMutate := false, mutateSet := [],
    heap := [(1, Node.n4 zeroInner (List.replicate 4 0) (List.replicate 4 none))] }

/-- Concrete one-leaf heap ("a" ↦ 1 at id 1) for the C2 witness. -/
def hwC2 : Heap Nat := [(1, Node.leaf [97] 1)]

/-- The tree over `hwC2`: the leaf is the root and `maxID` is 1. -/
def t1C2 : Tree := { root := some 1, maxID := 1, size := 1 }

theorem hFind_hSet_ne (h : Heap α) (i j : Nat) (n : Node α) (hne : j ≠ i) :
    hFind (hSet h i n) j = hFind h j := by
  induction h with
  | nil => simp [hSet, hFind, Ne.symm hne]
  | cons p t ih =>
    by_cases hp : p.1 = i
    · simp [hSet, hFind, hp, hne, Ne.symm hne]
    · cases p with
      | mk a b => simp only [hSet, hFind] at *; split at * <;> simp_all [hFind]

theorem hFind_hSet_self (h : Heap α) (i : Nat) (n : Node α) :
    hFind (hSet h i n) i = some n := by
  induction h with
  | nil => simp [hSet, hFind]
  | cons p t ih =>
    cases p with
    | mk a b =>
      by_cases hp : a = i
      · simp [hSet, hFind, hp]
      · simp [hSet, hFind, hp, ih]

/-- C1 (code bug): the source's `Tree.Get` is a stub.  Inserting key "a"
(byte 97) into the empty tree does store a leaf for it — the committed
tree's root points at `Node.leaf [97] 1` — yet `Get` on that very tree and
key returns `(none, false)` instead of `(some 1, true)`: the round-trip
property fails on the first inserted key. -/
theorem claim1_get_stub_contradicts_roundtrip :
    treeInsert ([] : Heap Nat) treeNew [97] 1 =
      some ([(1, Node.leaf [97] 1)], { root := some 1, maxID := 1, size := 0 }, none, false) ∧
    treeGet [(1, Node.leaf [97] (1 : Nat))] { root := some 1, maxID := 1, size := 0 } [97] =
      (none, false) :=
  ⟨rfl, rfl⟩

/-- C3 (code bug): the source's `Txn.Delete` is a stub.  On a tree that
contains key "a" (byte 97, value 1, stored in the leaf its root points at),
`Delete "a"` returns `(none, false)` instead of the stored value with
`existed = true`, and the returned tree still contains the key (root,
heap, and size all unchanged). -/
theorem claim3_delete_stub_contradicts_contract :
    treeDelete [(1, Node.leaf [97] (1 : Nat))] { root := some 1, maxID := 1, size := 0 } [97] =
      ([(1, Node.leaf [97] 1)], { root := some 1, maxID := 1, size := 0 }, none, false) :=
  rfl

/-- C4 (code bug): nothing in `Txn.Insert` ever increments the
transaction's `size`, so after inserting one distinct key into the empty
tree the committed tree's `Len` returns 0, not 1. -/
theorem claim4_size_never_incremented :
    treeInsert ([] : Heap Nat) treeNew [97] 1 =
      some ([(1, Node.leaf [97] 1)], { root := some 1, maxID := 1, size := 0 }, none, false) ∧
    treeLen { root := some 1, maxID := 1, size := 0 } = 0 :=
  ⟨rfl, rfl⟩

/-- C8 counterexample: `setPrefix` with an 11-byte argument sets
`prefixLen` to 10 — the number of bytes copied — not to the full logical
length 11 the claim states. -/
theorem claim8_counterexample :
    ((setPrefixOp t8c (some 1) p11).bind fun t =>
      ((hFind t.heap 1).bind innerOf).map Inner.prefixLen) = some 10 ∧
    p11.length = 11 ∧ (10 : Nat) ≠ 11 :=
  ⟨rfl, rfl, by decide⟩

/-- C9 counterexample: on a *leaf* node from the snapshot (id 1, with
`maxSnapID = 5`), `copyIfNeeded` records the id in the discard set but
returns the Go `nil` reference — the `copy` dispatch has no case for
leaves — rather than "a copy bearing a fresh identifier > maxSnapID" as
the claim states for every node with id ≤ maxSnapID. -/
theorem claim9_counterexample :
    hFind t9c.heap 1 = some (Node.leaf [97] 7) ∧ (1 : Nat) ≤ t9c.maxSnapID ∧
    copyIfNeeded t9c (some 1) = some ({ t9c with mutateSet := [1] }, none) :=
  ⟨rfl, by decide, rfl⟩

/-- C5 (code bug): evaluating the insertion chain "aabc", "aabd",
"aabcxx1", "aabcxx2", "aabcxy9".  The last insert reaches the inner node
holding prefix "x" at depth 5 with `lcp = 0 < 1 = len(prefix)`; the split
node it returns (id 11, reattached on the path root 15 → byte 99 → node 14
→ byte 120) holds the copied original under byte 120 = prefix[0] as the
claim states, but the new leaf (id 13, key "aabcxy9") is installed under
edge byte 97 = k[lcp] = k[0] — the source uses `k[lcp]` — instead of
`k[depth+lcp] = k[5] = 121`, under which `findChild` finds nothing. -/
theorem claim5_split_installs_wrong_edge_byte :
    (c5state.map fun p => p.2.root) = some (some 15) ∧
    (c5state.bind fun p => findChild p.1 (some 15) 99) = some (some 14) ∧
    (c5state.bind fun p => findChild p.1 (some 14) 120) = some (some 11) ∧
    (c5state.bind fun p => hFind p.1 11) =
      some (Node.n4 { leaf := none, prefixLen := 0, nChildren := 2,
                      pfx := List.replicate 10 0 } [97, 120, 0, 0]
        [some 13, some 12, none, none]) ∧
    (c5state.bind fun p => hFind p.1 13) = some (Node.leaf kAABCXY9 5) ∧
    (c5state.bind fun p => findChild p.1 (some 11) 121) = some none ∧
    (c5state.bind fun p => findChild p.1 (some 11) 97) = some (some 13) :=
  ⟨rfl, rfl, rfl, rfl, rfl, rfl, rfl⟩

/-- C6 (code bug): adding a fifth child whose edge byte (4) is greater
than all four existing edge bytes (0, 1, 2, 3) of a full node4 grows it to
a node16 (typ 2, fresh id 61) — but the grow loop only inserts the new
child *before* the first larger index byte, so the returned node16 has
child count 4 and no child under byte 4: the new child is silently
dropped, where the claim requires five children each retrievable. -/
theorem claim6_node4_grow_drops_child :
    hFind t6c.heap 1 = some (Node.n4 { leaf := none, prefixLen := 0, nChildren := 4,
                                       pfx := List.replicate 10 0 } [0, 1, 2, 3]
      [some 2, some 3, some 4, some 5]) ∧
    (addChild t6c (some 1) 4 (some 50)).map (fun p => p.2) = some (some 61) ∧
    ((addChild t6c (some 1) 4 (some 50)).bind fun p => (hFind p.1.heap 61).map typOf) =
      some 2 ∧
    ((addChild t6c (some 1) 4 (some 50)).bind fun p =>
      ((hFind p.1.heap 61).bind innerOf).map Inner.nChildren) = some 4 ∧
    ((addChild t6c (some 1) 4 (some 50)).bind fun p => findChild p.1.heap (some 61) 4) =
      some none :=
  ⟨rfl, rfl, rfl, rfl, rfl⟩

/-- C7 (code bug): removing an existing child (edge byte 0) from a node48
with exactly 17 children under edge bytes 0..16 takes the 48→16 shrink
path, whose copy loop writes `n16.children[childC]` — indexing the
16-slot child array by the *edge byte* — and never fills the node16's
index.  At edge byte 16 the write is out of range: a Go runtime panic,
modelled as `none`, instead of the claimed node16 with the 16 remaining
children retrievable through a sorted index. -/
theorem claim7_node48_shrink_out_of_range :
    hFind t7c.heap 1 = some (Node.n48 { leaf := none, prefixLen := 0, nChildren := 17,
                                        pfx := List.replicate 10 0 } (idx48c 17)
      (ch48c 17)) ∧
    findChild t7c.heap (some 1) 0 = some (some 2) ∧
    removeChild t7c (some 1) 0 = none :=
  ⟨rfl, rfl, rfl⟩

theorem getD_mem_take (l : List Nat) (n i : Nat) (hi : i < n) (hle : n ≤ l.length) :
    l.getD i 0 ∈ l.take n := by
  have h1 : i < l.length := lt_of_lt_of_le hi hle
  have h2 : i < (l.take n).length := by simp [List.length_take]; omega
  have h3 : l[i] = (l.take n)[i] := List.getElem_take' l h1 hi
  rw [List.getD_eq_getElem l 0 h1, h3]
  exact List.getElem_mem h2

theorem scanIndex_eq_none {index : List Nat} {nCh c : Nat}
    (h : ∀ i, i < nCh → index.getD i 0 ≠ c) : scanIndex index nCh c = none := by
  unfold scanIndex
  rw [List.find?_eq_none]
  intro x hx
  rw [List.mem_range] at hx
  simpa using h x hx

theorem n16IndexOf_eq_none {index : List Nat} {nCh c : Nat}
    (h : ∀ i, i < nCh → index.getD i 0 ≠ c) : n16IndexOf index nCh c = none := by
  unfold n16IndexOf
  rw [if_neg]
  rintro ⟨h1, h2⟩
  exact h _ h1 h2

/-- C10: on the three shapes the claim covers, `removeChild` with a byte
that has no child edge returns the same node and leaves the whole
transaction — child count, index, children, heap, mutate set — unchanged.
Absence is: for node4 and node16, the byte does not occur among the first
`nChildren` index entries (with the index array at least that long); for
node48, the byte's entry in the 256-byte index is 0. -/
theorem claim10_removeChild_absent_noop (t : Txn α) (i : Nat) (c : Nat) :
    (∀ ih index children, hFind t.heap i = some (Node.n4 ih index children) →
      ih.nChildren ≤ index.length → c ∉ index.take ih.nChildren →
      removeChild t (some i) c = some (t, some i)) ∧
    (∀ ih index children, hFind t.heap i = some (Node.n16 ih index children) →
      ih.nChildren ≤ index.length → c ∉ index.take ih.nChildren →
      removeChild t (some i) c = some (t, some i)) ∧
    (∀ ih index children, hFind t.heap i = some (Node.n48 ih index children) →
      index.getD c 0 = 0 →
      removeChild t (some i) c = some (t, some i)) := by
  refine ⟨?_, ?_, ?_⟩
  · intro ih index children hn hle habs
    have hnone : scanIndex index ih.nChildren c = none :=
      scanIndex_eq_none (fun j hj heq => habs (heq ▸ getD_mem_take index ih.nChildren j hj hle))
    unfold removeChild
    simp only [hn, hnone]
  · intro ih index children hn hle habs
    have hnone : n16IndexOf index ih.nChildren c = none :=
      n16IndexOf_eq_none (fun j hj heq => habs (heq ▸ getD_mem_take index ih.nChildren j hj hle))
    unfold removeChild
    simp only [hn, hnone]
  · intro ih index children hn h0
    unfold removeChild
    simp only [hn, h0, if_pos]

/-- C10 witness: in `t10c`, byte 9 has no edge in the node4 (id 1), the
node16 (id 2) or the node48 (id 3), and `removeChild` is an exact no-op on
each. -/
theorem claim10_witness :
    removeChild t10c (some 1) 9 = some (t10c, some 1) ∧
    removeChild t10c (some 2) 9 = some (t10c, some 2) ∧
    removeChild t10c (some 3) 9 = some (t10c, some 3) :=
  ⟨(claim10_removeChild_absent_noop t10c 1 9).1 _ _ _ rfl (by decide) (by decide),
   (claim10_removeChild_absent_noop t10c 2 9).2.1 _ _ _ rfl (by decide) (by decide),
   (claim10_removeChild_absent_noop t10c 3 9).2.2 _ _ _ rfl (by decide)⟩

/-- C8 (amended): `setPrefix(p)` writes the first `min (len p) 10` bytes of
`p` into the node's inline prefix buffer (keeping the buffer's tail) and
sets `prefixLen` to that same number of copied bytes, `min (len p) 10` —
*not* to the full logical length `len p` when `p` is longer than the
buffer. -/
theorem claim8_setPrefix_truncates (t u : Txn α) (i : Nat) (p : List Nat)
    (n : Node α) (m : Inner)
    (hn : hFind t.heap i = some n) (hm : innerOf n = some m)
    (hl : m.pfx.length = 10)
    (h : setPrefixOp t (some i) p = some u) :
    hFind u.heap i = some (withInner n (setPfxInner m p)) ∧
    (setPfxInner m p).prefixLen = min p.length 10 ∧
    (setPfxInner m p).pfx = p.take (min p.length 10) ++ m.pfx.drop (min p.length 10) := by
  have hstep : u = { t with heap := hSet t.heap i (withInner n (setPfxInner m p)) } := by
    unfold setPrefixOp at h
    cases n with
    | leaf k v => simp [hn] at h
    | n4 ih index children =>
      simp only [hn, innerOf, Option.some.injEq] at h hm
      subst hm
      exact h.symm
    | n16 ih index children =>
      simp only [hn, innerOf, Option.some.injEq] at h hm
      subst hm
      exact h.symm
    | n48 ih index children =>
      simp only [hn, innerOf, Option.some.injEq] at h hm
      subst hm
      exact h.symm
    | n256 ih children =>
      simp only [hn, innerOf, Option.some.injEq] at h hm
      subst hm
      exact h.symm
  subst hstep
  refine ⟨hFind_hSet_self t.heap i _, ?_, ?_⟩
  · simp [setPfxInner, hl]
  · simp [setPfxInner, goCopy, hl]

/-- C8 witness: on the fresh node4 of `t8c` and the 11-byte argument
`p11`, `setPrefix` yields `prefixLen = min 11 10 = 10` and the buffer
holds the first ten bytes of `p11`. -/
theorem claim8_witness :
    hFind (hSet t8c.heap 1 (withInner
        (Node.n4 zeroInner (List.replicate 4 0) (List.replicate 4 none))
        (setPfxInner zeroInner p11))) 1 =
      some (withInner (Node.n4 zeroInner (List.replicate 4 0) (List.replicate 4 none))
        (setPfxInner zeroInner p11)) ∧
    (setPfxInner zeroInner p11).prefixLen = min p11.length 10 ∧
    (setPfxInner zeroInner p11).pfx =
      p11.take (min p11.length 10) ++ zeroInner.pfx.drop (min p11.length 10) := by
  have h := claim8_setPrefix_truncates t8c
    { t8c with heap := hSet t8c.heap 1 (withInner
        (Node.n4 zeroInner (List.replicate 4 0) (List.replicate 4 none))
        (setPfxInner zeroInner p11)) }
    1 p11 (Node.n4 zeroInner (List.replicate 4 0) (List.replicate 4 none)) zeroInner
    rfl rfl (by decide) rfl
  exact h

theorem mem_discard_self (t : Txn α) (i : Nat) (h : i ≤ t.maxSnapID) :
    i ∈ (discard t i).mutateSet := by
  have hlt : ¬ t.maxSnapID < i := by omega
  simp only [discard, hlt, if_false]
  split
  next hc => exact List.mem_of_elem_eq_true hc
  next hc => exact List.mem_cons_self i _

theorem discard_mutateSet_bound (t : Txn α) (i j : Nat)
    (hall : ∀ m ∈ t.mutateSet, m ≤ t.maxSnapID)
    (hj : j ∈ (discard t i).mutateSet) : j ≤ t.maxSnapID := by
  unfold discard at hj
  by_cases hi : t.maxSnapID < i
  · rw [if_pos hi] at hj
    exact hall j hj
  · rw [if_neg hi] at hj
    simp only [] at hj
    split at hj
    · exact hall j hj
    · rcases List.mem_cons.mp hj with h1 | h2
      · omega
      · exact hall j h2

theorem discard_heap (t : Txn α) (i : Nat) : (discard t i).heap = t.heap := by
  unfold discard
  split <;> rfl

theorem discard_maxSnapID (t : Txn α) (i : Nat) :
    (discard t i).maxSnapID = t.maxSnapID := by
  unfold discard
  split <;> rfl

theorem discard_maxRootID (t : Txn α) (i : Nat) :
    (discard t i).maxRootID = t.maxRootID := by
  unfold discard
  split <;> rfl

theorem discard_root (t : Txn α) (i : Nat) : (discard t i).root = t.root := by
  unfold discard
  split <;> rfl

theorem copyNode_leaf_eq (t : Txn α) (i : Nat) (k : List Nat) (v : α)
    (hn : hFind t.heap i = some (Node.leaf k v)) :
    copyNode t (some i) = some (t, none) := by
  simp only [copyNode, hn]

theorem copyNode_n4_eq (t : Txn α) (i : Nat) (ih : Inner) (index : List Nat)
    (children : List (Option Nat))
    (hn : hFind t.heap i = some (Node.n4 ih index children)) :
    copyNode t (some i) = some
      ({ t with
           maxRootID := t.maxRootID + 1,
           heap := (hSet (hSet t.heap (t.maxRootID + 1)
           (Node.n4 zeroInner (List.replicate 4 0) (List.replicate 4 none)))
           (t.maxRootID + 1) (Node.n4 ih index children)) },
       some (t.maxRootID + 1)) := by
  simp only [copyNode, hn, newNode4, nextID]

theorem copyNode_n16_eq (t : Txn α) (i : Nat) (ih : Inner) (index : List Nat)
    (children : List (Option Nat))
    (hn : hFind t.heap i = some (Node.n16 ih index children)) :
    copyNode t (some i) = some
      ({ t with
           maxRootID := t.maxRootID + 1,
           heap := (hSet (hSet t.heap (t.maxRootID + 1)
           (Node.n16 zeroInner (List.replicate 16 0) (List.replicate 16 none)))
           (t.maxRootID + 1) (Node.n16 ih index children)) },
       some (t.maxRootID + 1)) := by
  simp only [copyNode, hn, newNode16, nextID]

theorem copyNode_n48_eq (t : Txn α) (i : Nat) (ih : Inner) (index : List Nat)
    (children : List (Option Nat))
    (hn : hFind t.heap i = some (Node.n48 ih index children)) :
    copyNode t (some i) = some
      ({ t with
           maxRootID := t.maxRootID + 1,
           heap := (hSet (hSet t.heap (t.maxRootID + 1)
           (Node.n48 zeroInner (List.replicate 256 0) (List.replicate 48 none)))
           (t.maxRootID + 1) (Node.n48 ih index children)) },
       some (t.maxRootID + 1)) := by
  simp only [copyNode, hn, newNode48, nextID]

theorem copyNode_n256_eq (t : Txn α) (i : Nat) (ih : Inner)
    (children : List (Option Nat))
    (hn : hFind t.heap i = some (Node.n256 ih children)) :
    copyNode t (some i) = some
      ({ t with
           maxRootID := t.maxRootID + 1,
           heap := (hSet (hSet t.heap (t.maxRootID + 1)
           (Node.n256 zeroInner (List.replicate 256 none)))
           (t.maxRootID + 1) (Node.n256 ih children)) },
       some (t.maxRootID + 1)) := by
  simp only [copyNode, hn, newNode256, nextID]

/-- C9 (amended): throughout a transaction the discard set only ever holds
identifiers ≤ `maxSnapID` — `discard` ignores larger ids outright — and
`copyIfNeeded` returns the node itself unchanged when its id is
> `maxSnapID`; for an *inner* node from the snapshot it returns a copy
with the same contents under the fresh identifier `maxRootID + 1 >
maxSnapID`, records the original's id in the discard set, and leaves every
snapshot heap cell unchanged.  (For a snapshot *leaf* the `copy` dispatch
returns the nil reference — see the counterexample — which is why this
part is restricted to inner nodes.) -/
theorem claim9_discard_and_copy_gating (t : Txn α) :
    (∀ i : Nat, t.maxSnapID < i → discard t i = t) ∧
    (∀ i j : Nat, (∀ m ∈ t.mutateSet, m ≤ t.maxSnapID) → j ∈ (discard t i).mutateSet →
      j ≤ t.maxSnapID) ∧
    (∀ i : Nat, t.maxSnapID < i → copyIfNeeded t (some i) = some (t, some i)) ∧
    (∀ (i : Nat) (n : Node α), t.maxSnapID ≤ t.maxRootID → i ≤ t.maxSnapID →
      hFind t.heap i = some n → innerOf n ≠ none →
      ∃ u, copyIfNeeded t (some i) = some (u, some (t.maxRootID + 1)) ∧
        t.maxSnapID < t.maxRootID + 1 ∧
        hFind u.heap (t.maxRootID + 1) = some n ∧
        i ∈ u.mutateSet ∧ u.maxSnapID = t.maxSnapID ∧
        ∀ m : Nat, m ≤ t.maxSnapID → hFind u.heap m = hFind t.heap m) := by
  refine ⟨?_, ?_, ?_, ?_⟩
  · intro i hi
    simp only [discard, hi, if_true]
  · intro i j hall hj
    exact discard_mutateSet_bound t i j hall hj
  · intro i hi
    have hle : ¬ i ≤ t.maxSnapID := Nat.not_le.mpr hi
    simp only [copyIfNeeded, hle, if_false]
  · intro i n hInv hi hn hinner
    have hmem : i ∈ (discard t i).mutateSet := mem_discard_self t i hi
    have hfd : hFind (discard t i).heap i = some n := by rw [discard_heap]; exact hn
    have hfresh : t.maxSnapID < t.maxRootID + 1 := Nat.lt_of_le_of_lt hInv (Nat.lt_succ_self _)
    have hmne : ∀ m : Nat, m ≤ t.maxSnapID → m ≠ t.maxRootID + 1 := by
      intro m hm he
      omega
    simp only [copyIfNeeded, hi, if_true]
    cases n with
    | leaf k v => simp [innerOf] at hinner
    | n4 ih index children =>
      rw [copyNode_n4_eq (discard t i) i ih index children hfd, discard_maxRootID]
      refine ⟨_, rfl, hfresh, ?_, ?_, ?_, ?_⟩
      · exact hFind_hSet_self _ _ _
      · simpa using hmem
      · simpa using discard_maxSnapID t i
      · intro m hm
        simp only
        rw [hFind_hSet_ne _ _ _ _ (hmne m hm), hFind_hSet_ne _ _ _ _ (hmne m hm),
          discard_heap]
    | n16 ih index children =>
      rw [copyNode_n16_eq (discard t i) i ih index children hfd, discard_maxRootID]
      refine ⟨_, rfl, hfresh, ?_, ?_, ?_, ?_⟩
      · exact hFind_hSet_self _ _ _
      · simpa using hmem
      · simpa using discard_maxSnapID t i
      · intro m hm
        simp only
        rw [hFind_hSet_ne _ _ _ _ (hmne m hm), hFind_hSet_ne _ _ _ _ (hmne m hm),
          discard_heap]
    | n48 ih index children =>
      rw [copyNode_n48_eq (discard t i) i ih index children hfd, discard_maxRootID]
      refine ⟨_, rfl, hfresh, ?_, ?_, ?_, ?_⟩
      · exact hFind_hSet_self _ _ _
      · simpa using hmem
      · simpa using discard_maxSnapID t i
      · intro m hm
        simp only
        rw [hFind_hSet_ne _ _ _ _ (hmne m hm), hFind_hSet_ne _ _ _ _ (hmne m hm),
          discard_heap]
    | n256 ih children =>
      rw [copyNode_n256_eq (discard t i) i ih children hfd, discard_maxRootID]
      refine ⟨_, rfl, hfresh, ?_, ?_, ?_, ?_⟩
      · exact hFind_hSet_self _ _ _
      · simpa using hmem
      · simpa using discard_maxSnapID t i
      · intro m hm
        simp only
        rw [hFind_hSet_ne _ _ _ _ (hmne m hm), hFind_hSet_ne _ _ _ _ (hmne m hm),
          discard_heap]

/-- C9 witness: in `t9i` (snapshot ids up to 5, an inner node4 under id 1,
`maxRootID = 5`), `copyIfNeeded` on id 1 yields the copy under the fresh
id 6 > 5, records 1 in the discard set, and leaves every snapshot cell
unchanged. -/
theorem claim9_witness :
    ∃ u, copyIfNeeded t9i (some 1) = some (u, some (t9i.maxRootID + 1)) ∧
      t9i.maxSnapID < t9i.maxRootID + 1 ∧
      hFind u.heap (t9i.maxRootID + 1) =
        some (Node.n4 zeroInner (List.replicate 4 0) (List.replicate 4 none)) ∧
      1 ∈ u.mutateSet ∧ u.maxSnapID = t9i.maxSnapID ∧
      ∀ m : Nat, m ≤ t9i.maxSnapID → hFind u.heap m = hFind t9i.heap m :=
  (claim9_discard_and_copy_gating t9i).2.2.2 1
    (Node.n4 zeroInner (List.replicate 4 0) (List.replicate 4 none))
    (by decide) (by decide) rfl (by simp [innerOf])

theorem pres_refl (t : Txn α) : Pres t t :=
  ⟨rfl, Nat.le_refl _, fun _ _ => rfl⟩

theorem pres_trans {t u v : Txn α} (h1 : Pres t u) (h2 : Pres u v) : Pres t v := by
  obtain ⟨a1, b1, c1⟩ := h1
  obtain ⟨a2, b2, c2⟩ := h2
  refine ⟨a2.trans a1, Nat.le_trans b1 b2, fun i hi => ?_⟩
  rw [c2 i (by omega), c1 i hi]

theorem pres_inv {t u : Txn α} (h : Pres t u) (hInv : t.maxSnapID ≤ t.maxRootID) :
    u.maxSnapID ≤ u.maxRootID := by
  obtain ⟨a, b, _⟩ := h
  omega

theorem pres_set {t : Txn α} {i : Nat} (n : Node α) (hi : t.maxSnapID < i) :
    Pres t { t with heap := hSet t.heap i n } :=
  ⟨rfl, Nat.le_refl _, fun j hj => hFind_hSet_ne _ _ _ _ (by omega)⟩

theorem pres_bump (t : Txn α) (n : Node α) (hInv : t.maxSnapID ≤ t.maxRootID) :
    Pres t { t with maxRootID := t.maxRootID + 1,
                    heap := hSet t.heap (t.maxRootID + 1) n } :=
  ⟨rfl, Nat.le_succ _, fun j hj => hFind_hSet_ne _ _ _ _ (by omega)⟩

theorem pres_bump2 (t : Txn α) (n1 n2 : Node α) (hInv : t.maxSnapID ≤ t.maxRootID) :
    Pres t { t with maxRootID := t.maxRootID + 1,
                    heap := hSet (hSet t.heap (t.maxRootID + 1) n1) (t.maxRootID + 1) n2 } :=
  ⟨rfl, Nat.le_succ _, fun j hj => by
    rw [hFind_hSet_ne _ _ _ _ (by omega), hFind_hSet_ne _ _ _ _ (by omega)]⟩

theorem discard_pres (t : Txn α) (i : Nat) : Pres t (discard t i) :=
  ⟨discard_maxSnapID t i, Nat.le_of_eq (discard_maxRootID t i).symm,
   fun j _ => by rw [discard_heap]⟩

theorem newLeafNode_eq (t : Txn α) (k : List Nat) (v : α) :
    newLeafNode t k v =
      ({ t with maxRootID := t.maxRootID + 1,
                heap := hSet t.heap (t.maxRootID + 1) (Node.leaf k v) },
       t.maxRootID + 1) := rfl

theorem newLeafNode_pres (t : Txn α) (k : List Nat) (v : α)
    (hInv : t.maxSnapID ≤ t.maxRootID) :
    Pres t (newLeafNode t k v).1 ∧ t.maxSnapID < (newLeafNode t k v).2 :=
  ⟨pres_bump t (Node.leaf k v) hInv, by show t.maxSnapID < t.maxRootID + 1; omega⟩

theorem newNode4_pres (t : Txn α) (hInv : t.maxSnapID ≤ t.maxRootID) :
    Pres t (newNode4 t).1 ∧ t.maxSnapID < (newNode4 t).2 :=
  ⟨pres_bump t _ hInv, by show t.maxSnapID < t.maxRootID + 1; omega⟩

theorem setPrefixOp_pres {t u : Txn α} {r : Option Nat} {p : List Nat}
    (hr : ∀ j : Nat, r = some j → t.maxSnapID < j)
    (h : setPrefixOp t r p = some u) : Pres t u := by
  cases r with
  | none => simp [setPrefixOp] at h
  | some i =>
    have hi : t.maxSnapID < i := hr i rfl
    simp only [setPrefixOp] at h
    cases hfind : hFind t.heap i with
    | none => simp [hfind] at h
    | some n =>
      simp only [hfind] at h
      cases n with
      | leaf k v => simp at h
      | n4 ih index children =>
        simp only [innerOf, Option.some.injEq] at h
        subst h
        exact pres_set _ hi
      | n16 ih index children =>
        simp only [innerOf, Option.some.injEq] at h
        subst h
        exact pres_set _ hi
      | n48 ih index children =>
        simp only [innerOf, Option.some.injEq] at h
        subst h
        exact pres_set _ hi
      | n256 ih children =>
        simp only [innerOf, Option.some.injEq] at h
        subst h
        exact pres_set _ hi

theorem leftTrimOp_pres {t u : Txn α} {r : Option Nat} {l : Nat}
    (hr : ∀ j : Nat, r = some j → t.maxSnapID < j)
    (h : leftTrimOp t r l = some u) : Pres t u := by
  cases r with
  | none => simp [leftTrimOp] at h
  | some i =>
    have hi : t.maxSnapID < i := hr i rfl
    simp only [leftTrimOp] at h
    cases hfind : hFind t.heap i with
    | none => simp [hfind] at h
    | some n =>
      simp only [hfind] at h
      cases n with
      | leaf k v => simp at h
      | n4 ih index children =>
        simp only [innerOf] at h
        cases htrim : leftTrimInner ih l with
        | none => simp [htrim] at h
        | some ih2 =>
          simp only [htrim, Option.some.injEq] at h
          subst h
          exact pres_set _ hi
      | n16 ih index children =>
        simp only [innerOf] at h
        cases htrim : leftTrimInner ih l with
        | none => simp [htrim] at h
        | some ih2 =>
          simp only [htrim, Option.some.injEq] at h
          subst h
          exact pres_set _ hi
      | n48 ih index children =>
        simp only [innerOf] at h
        cases htrim : leftTrimInner ih l with
        | none => simp [htrim] at h
        | some ih2 =>
          simp only [htrim, Option.some.injEq] at h
          subst h
          exact pres_set _ hi
      | n256 ih children =>
        simp only [innerOf] at h
        cases htrim : leftTrimInner ih l with
        | none => simp [htrim] at h
        | some ih2 =>
          simp only [htrim, Option.some.injEq] at h
          subst h
          exact pres_set _ hi

theorem setInnerLeafOp_pres {t u : Txn α} {r : Option Nat} {l : Nat}
    (hr : ∀ j : Nat, r = some j → t.maxSnapID < j)
    (h : setInnerLeafOp t r l = some u) : Pres t u := by
  cases r with
  | none => simp [setInnerLeafOp] at h
  | some i =>
    have hi : t.maxSnapID < i := hr i rfl
    simp only [setInnerLeafOp] at h
    cases hfind : hFind t.heap i with
    | none => simp [hfind] at h
    | some n =>
      simp only [hfind] at h
      cases n with
      | leaf k v => simp at h
      | n4 ih index children =>
        simp only [innerOf, Option.some.injEq] at h
        subst h
        exact pres_set _ hi
      | n16 ih index children =>
        simp only [innerOf, Option.some.injEq] at h
        subst h
        exact pres_set _ hi
      | n48 ih index children =>
        simp only [innerOf, Option.some.injEq] at h
        subst h
        exact pres_set _ hi
      | n256 ih children =>
        simp only [innerOf, Option.some.injEq] at h
        subst h
        exact pres_set _ hi

theorem copyNode_none_eq (t : Txn α) (i : Nat) (hn : hFind t.heap i = none) :
    copyNode t (some i) = none := by
  simp only [copyNode, hn]

theorem copyIfNeeded_some_eq (t : Txn α) (i : Nat) :
    copyIfNeeded t (some i) =
      if i ≤ t.maxSnapID then copyNode (discard t i) (some i) else some (t, some i) := rfl

theorem copyIfNeeded_pres {t u : Txn α} {r r2 : Option Nat}
    (hInv : t.maxSnapID ≤ t.maxRootID)
    (h : copyIfNeeded t r = some (u, r2)) :
    Pres t u ∧ ∀ j : Nat, r2 = some j → t.maxSnapID < j := by
  cases r with
  | none => simp [copyIfNeeded] at h
  | some i =>
    rw [copyIfNeeded_some_eq] at h
    by_cases hi : i ≤ t.maxSnapID
    · rw [if_pos hi] at h
      cases hfind : hFind (discard t i).heap i with
      | none => rw [copyNode_none_eq _ _ hfind] at h; simp at h
      | some n =>
        cases n with
        | leaf k v =>
          rw [copyNode_leaf_eq _ _ _ _ hfind] at h
          simp only [Option.some.injEq, Prod.mk.injEq] at h
          obtain ⟨h1, h2⟩ := h
          subst h1
          subst h2
          exact ⟨discard_pres t i, fun j hj => by simp at hj⟩
        | n4 ih index children =>
          rw [copyNode_n4_eq _ _ _ _ _ hfind] at h
          simp only [Option.some.injEq, Prod.mk.injEq] at h
          obtain ⟨h1, h2⟩ := h
          subst h1
          refine ⟨pres_trans (discard_pres t i) (pres_bump2 (discard t i) _ _ ?_), ?_⟩
          · rw [discard_maxSnapID, discard_maxRootID]; exact hInv
          · intro j hj
            rw [← h2, discard_maxRootID] at hj
            simp only [Option.some.injEq] at hj
            omega
        | n16 ih index children =>
          rw [copyNode_n16_eq _ _ _ _ _ hfind] at h
          simp only [Option.some.injEq, Prod.mk.injEq] at h
          obtain ⟨h1, h2⟩ := h
          subst h1
          refine ⟨pres_trans (discard_pres t i) (pres_bump2 (discard t i) _ _ ?_), ?_⟩
          · rw [discard_maxSnapID, discard_maxRootID]; exact hInv
          · intro j hj
            rw [← h2, discard_maxRootID] at hj
            simp only [Option.some.injEq] at hj
            omega
        | n48 ih index children =>
          rw [copyNode_n48_eq _ _ _ _ _ hfind] at h
          simp only [Option.some.injEq, Prod.mk.injEq] at h
          obtain ⟨h1, h2⟩ := h
          subst h1
          refine ⟨pres_trans (discard_pres t i) (pres_bump2 (discard t i) _ _ ?_), ?_⟩
          · rw [discard_maxSnapID, discard_maxRootID]; exact hInv
          · intro j hj
            rw [← h2, discard_maxRootID] at hj
            simp only [Option.some.injEq] at hj
            omega
        | n256 ih children =>
          rw [copyNode_n256_eq _ _ _ _ hfind] at h
          simp only [Option.some.injEq, Prod.mk.injEq] at h
          obtain ⟨h1, h2⟩ := h
          subst h1
          refine ⟨pres_trans (discard_pres t i) (pres_bump2 (discard t i) _ _ ?_), ?_⟩
          · rw [discard_maxSnapID, discard_maxRootID]; exact hInv
          · intro j hj
            rw [← h2, discard_maxRootID] at hj
            simp only [Option.some.injEq] at hj
            omega
    · rw [if_neg hi] at h
      simp only [Option.some.injEq, Prod.mk.injEq] at h
      obtain ⟨h1, h2⟩ := h
      subst h1
      refine ⟨pres_refl t, fun j hj => ?_⟩
      rw [← h2] at hj
      simp only [Option.some.injEq] at hj
      omega

theorem addChild_pres {t u : Txn α} {r r2 : Option Nat} {c : Nat} {child : Option Nat}
    (hInv : t.maxSnapID ≤ t.maxRootID)
    (hr : ∀ j : Nat, r = some j → t.maxSnapID < j)
    (h : addChild t r c child = some (u, r2)) :
    Pres t u ∧ ∀ j : Nat, r2 = some j → t.maxSnapID < j := by
  cases r with
  | none => simp [addChild] at h
  | some i =>
    have hi : t.maxSnapID < i := hr i rfl
    simp only [addChild] at h
    cases hfind : hFind t.heap i with
    | none => simp [hfind] at h
    | some n =>
      simp only [hfind] at h
      cases n with
      | leaf k v =>
        simp only [Option.some.injEq, Prod.mk.injEq] at h
        obtain ⟨h1, h2⟩ := h
        subst h1
        exact ⟨pres_refl t, fun j hj => by rw [← h2] at hj; simp at hj⟩
      | n4 ih index children =>
        dsimp only [] at h
        by_cases hc : ih.nChildren < 4
        · rw [if_pos hc] at h
          simp only [Option.some.injEq, Prod.mk.injEq] at h
          obtain ⟨h1, h2⟩ := h
          subst h1
          refine ⟨pres_set _ hi, fun j hj => ?_⟩
          rw [← h2] at hj
          simp only [Option.some.injEq] at hj
          omega
        · rw [if_neg hc] at h
          simp only [newNode16, nextID, Option.some.injEq, Prod.mk.injEq] at h
          obtain ⟨h1, h2⟩ := h
          subst h1
          refine ⟨pres_bump2 t _ _ hInv, fun j hj => ?_⟩
          rw [← h2] at hj
          simp only [Option.some.injEq] at hj
          omega
      | n16 ih index children =>
        dsimp only [] at h
        by_cases hc : ih.nChildren < 16
        · rw [if_pos hc] at h
          simp only [Option.some.injEq, Prod.mk.injEq] at h
          obtain ⟨h1, h2⟩ := h
          subst h1
          refine ⟨pres_set _ hi, fun j hj => ?_⟩
          rw [← h2] at hj
          simp only [Option.some.injEq] at hj
          omega
        · rw [if_neg hc] at h
          cases hg : n16Grow index children c child with
          | none => simp [hg] at h
          | some g =>
            simp only [hg, newNode48, nextID, Option.some.injEq, Prod.mk.injEq] at h
            obtain ⟨h1, h2⟩ := h
            subst h1
            refine ⟨pres_bump2 t _ _ hInv, fun j hj => ?_⟩
            rw [← h2] at hj
            simp only [Option.some.injEq] at hj
            omega
      | n48 ih index children =>
        dsimp only [] at h
        by_cases hc : ih.nChildren < 48
        · rw [if_pos hc] at h
          cases h1 : setAt? index c (ih.nChildren + 1) with
          | none => simp [h1] at h
          | some i2 =>
            cases h2 : setAt? children ih.nChildren child with
            | none => simp [h1, h2] at h
            | some c2 =>
              simp only [h1, h2, Option.some.injEq, Prod.mk.injEq] at h
              obtain ⟨h3, h4⟩ := h
              subst h3
              refine ⟨pres_set _ hi, fun j hj => ?_⟩
              rw [← h4] at hj
              simp only [Option.some.injEq] at hj
              omega
        · rw [if_neg hc] at h
          cases hg : n48Grow index children c child with
          | none => simp [hg] at h
          | some g =>
            simp only [hg, newNode256, nextID, Option.some.injEq, Prod.mk.injEq] at h
            obtain ⟨h1, h2⟩ := h
            subst h1
            refine ⟨pres_bump2 t _ _ hInv, fun j hj => ?_⟩
            rw [← h2] at hj
            simp only [Option.some.injEq] at hj
            omega
      | n256 ih children =>
        cases h1 : setAt? children c child with
        | none => simp [h1] at h
        | some c2 =>
          simp only [h1, Option.some.injEq, Prod.mk.injEq] at h
          obtain ⟨h2, h3⟩ := h
          subst h2
          refine ⟨pres_set _ hi, fun j hj => ?_⟩
          rw [← h3] at hj
          simp only [Option.some.injEq] at hj
          omega

theorem replaceChild_pres {t u : Txn α} {r r2 : Option Nat} {c : Nat} {child : Option Nat}
    (hr : ∀ j : Nat, r = some j → t.maxSnapID < j)
    (h : replaceChild t r c child = some (u, r2)) :
    Pres t u ∧ ∀ j : Nat, r2 = some j → t.maxSnapID < j := by
  cases r with
  | none => simp [replaceChild] at h
  | some i =>
    have hi : t.maxSnapID < i := hr i rfl
    simp only [replaceChild] at h
    cases hfind : hFind t.heap i with
    | none => simp [hfind] at h
    | some n =>
      simp only [hfind] at h
      cases n with
      | leaf k v =>
        simp only [Option.some.injEq, Prod.mk.injEq] at h
        obtain ⟨h1, h2⟩ := h
        subst h1
        exact ⟨pres_refl t, fun j hj => by rw [← h2] at hj; simp at hj⟩
      | n4 ih index children =>
        cases hs : scanIndex index ih.nChildren c with
        | none =>
          simp only [hs, Option.some.injEq, Prod.mk.injEq] at h
          obtain ⟨h1, h2⟩ := h
          subst h1
          refine ⟨pres_refl t, fun j hj => ?_⟩
          rw [← h2] at hj
          simp only [Option.some.injEq] at hj
          omega
        | some pos =>
          cases h1 : setAt? children pos child with
          | none => simp [hs, h1] at h
          | some c2 =>
            simp only [hs, h1, Option.some.injEq, Prod.mk.injEq] at h
            obtain ⟨h2, h3⟩ := h
            subst h2
            refine ⟨pres_set _ hi, fun j hj => ?_⟩
            rw [← h3] at hj
            simp only [Option.some.injEq] at hj
            omega
      | n16 ih index children =>
        cases hs : n16IndexOf index ih.nChildren c with
        | none =>
          simp only [hs, Option.some.injEq, Prod.mk.injEq] at h
          obtain ⟨h1, h2⟩ := h
          subst h1
          refine ⟨pres_refl t, fun j hj => ?_⟩
          rw [← h2] at hj
          simp only [Option.some.injEq] at hj
          omega
        | some pos =>
          cases h1 : setAt? children pos child with
          | none => simp [hs, h1] at h
          | some c2 =>
            simp only [hs, h1, Option.some.injEq, Prod.mk.injEq] at h
            obtain ⟨h2, h3⟩ := h
            subst h2
            refine ⟨pres_set _ hi, fun j hj => ?_⟩
            rw [← h3] at hj
            simp only [Option.some.injEq] at hj
            omega
      | n48 ih index children =>
        by_cases h0 : index.getD c 0 = 0
        · simp only [h0, if_pos, Option.some.injEq, Prod.mk.injEq] at h
          obtain ⟨h1, h2⟩ := h
          subst h1
          refine ⟨pres_refl t, fun j hj => ?_⟩
          rw [← h2] at hj
          simp only [Option.some.injEq] at hj
          omega
        · simp only [if_neg h0] at h
          cases h1 : setAt? children (index.getD c 0 - 1) child with
          | none => rw [h1] at h; simp at h
          | some c2 =>
            rw [h1] at h
            simp only [Option.some.injEq, Prod.mk.injEq] at h
            obtain ⟨h2, h3⟩ := h
            subst h2
            refine ⟨pres_set _ hi, fun j hj => ?_⟩
            rw [← h3] at hj
            simp only [Option.some.injEq] at hj
            omega
      | n256 ih children =>
        cases h1 : setAt? children c child with
        | none => simp [h1] at h
        | some c2 =>
          simp only [h1, Option.some.injEq, Prod.mk.injEq] at h
          obtain ⟨h2, h3⟩ := h
          subst h2
          refine ⟨pres_set _ hi, fun j hj => ?_⟩
          rw [← h3] at hj
          simp only [Option.some.injEq] at hj
          omega

/-- Freshness transports forward along `Pres`: the snapshot bound is unchanged. -/
theorem fresh_mono {t u : Txn α} {r : Option Nat} (hp : Pres t u)
    (hf : ∀ j : Nat, r = some j → t.maxSnapID < j) :
    ∀ j : Nat, r = some j → u.maxSnapID < j := by
  intro j hj
  rw [hp.1]
  exact hf j hj

/-- Freshness transports backward along `Pres`. -/
theorem fresh_back {t u : Txn α} {r : Option Nat} (hp : Pres t u)
    (hf : ∀ j : Nat, r = some j → u.maxSnapID < j) :
    ∀ j : Nat, r = some j → t.maxSnapID < j := by
  intro j hj
  rw [← hp.1]
  exact hf j hj

/-- The id of a freshly allocated node4 is above the snapshot bound. -/
theorem newNode4_fresh (t : Txn α) (hInv : t.maxSnapID ≤ t.maxRootID) :
    ∀ j : Nat, some (newNode4 t).2 = some j → t.maxSnapID < j := by
  intro j hj
  simp only [Option.some.injEq] at hj
  have he : (newNode4 t).2 = t.maxRootID + 1 := rfl
  omega

/-- The id of a freshly allocated leaf is above the snapshot bound. -/
theorem newLeafNode_fresh (t : Txn α) (k : List Nat) (v : α)
    (hInv : t.maxSnapID ≤ t.maxRootID) :
    ∀ j : Nat, some (newLeafNode t k v).2 = some j → t.maxSnapID < j := by
  intro j hj
  simp only [Option.some.injEq] at hj
  have he : (newLeafNode t k v).2 = t.maxRootID + 1 := rfl
  omega


/-- Shared inner-node step of `insertGo` (the body is identical for the
node4/node16/node48/node256 shapes): given the induction hypothesis for the
recursive call, the step preserves the snapshot and returns a fresh
reference. -/
theorem insertGo_inner_step {α : Type} (fuel : Nat)
    (IH : ∀ (t : Txn α) (r : Option Nat) (k : List Nat) (v : α) (offset : Nat)
      (u : Txn α) (r2 : Option Nat) (old : Option α) (rep : Bool),
      t.maxSnapID ≤ t.maxRootID →
      insertGo fuel t r k v offset = some (u, r2, old, rep) →
      Pres t u ∧ ∀ j : Nat, r2 = some j → t.maxSnapID < j)
    (t : Txn α) (i : Nat) (k : List Nat) (v : α) (offset : Nat)
    (u : Txn α) (r2 : Option Nat) (old : Option α) (rep : Bool)
    (hInv : t.maxSnapID ≤ t.maxRootID)
    (h : (if k.length ≤ offset then
            let p := newLeafNode t k v
            match copyIfNeeded p.1 (some i) with
            | none => none
            | some (t2, nn) =>
              match setInnerLeafOp t2 nn p.2 with
              | none => none
              | some t3 =>
                let t4 := discard t3 i
                match hFind t4.heap i with
                | none => none
                | some n2 =>
                  match innerLeafOf n2 with
                  | some ol =>
                    let t5 := discard t4 ol
                    match hFind t5.heap ol with
                    | some (Node.leaf _ ov) => some (t5, nn, some ov, true)
                    | _ => none
                  | none => some (t4, nn, none, false)
          else
            match getPrefix t.heap (some i) with
            | none => none
            | some pfxList =>
              let lcp := longestPrefix (k.drop offset) pfxList
              if pfxList.length ≤ lcp then
                let off2 := offset + pfxList.length
                match k.get? off2 with
                | none => none
                | some c =>
                  match findChild t.heap (some i) c with
                  | none => none
                  | some (some childId) =>
                    match insertGo fuel t (some childId) k v (off2 + 1) with
                    | none => none
                    | some (t2, newChild, old2, ex) =>
                      match copyIfNeeded t2 (some i) with
                      | none => none
                      | some (t3, nn) =>
                        match replaceChild t3 nn c newChild with
                        | none => none
                        | some (t4, nn2) => some (t4, nn2, old2, ex)
                  | some none =>
                    let p := newLeafNode t k v
                    match copyIfNeeded p.1 (some i) with
                    | none => none
                    | some (t2, nn) =>
                      match addChild t2 nn c (some p.2) with
                      | none => none
                      | some (t3, nn2) => some (discard t3 i, nn2, none, false)
              else
                let p := newNode4 t
                let sid := p.2
                match setPrefixOp p.1 (some sid) ((k.drop offset).take lcp) with
                | none => none
                | some t2 =>
                  match copyIfNeeded t2 (some i) with
                  | none => none
                  | some (t3, nn) =>
                    match leftTrimOp t3 nn lcp with
                    | none => none
                    | some t4 =>
                      match pfxList.get? lcp with
                      | none => none
                      | some b1 =>
                        match addChild t4 (some sid) b1 nn with
                        | none => none
                        | some (t5, sRef) =>
                          let q := newLeafNode t5 k v
                          match k.get? lcp with
                          | none => none
                          | some b2 =>
                            match addChild q.1 sRef b2 (some q.2) with
                            | none => none
                            | some (t6, sRef2) => some (t6, sRef2, none, false))
         = some (u, r2, old, rep)) :
    Pres t u ∧ ∀ j : Nat, r2 = some j → t.maxSnapID < j := by
  by_cases ho : k.length ≤ offset
  · rw [if_pos ho] at h
    try dsimp only [] at h
    have hq := newLeafNode_pres t k v hInv
    cases hcn : copyIfNeeded (newLeafNode t k v).1 (some i) with
    | none => rw [hcn] at h; simp at h
    | some pr =>
      rw [hcn] at h
      try dsimp only [] at h
      obtain ⟨t2, nn⟩ := pr
      have hcnP := copyIfNeeded_pres (pres_inv hq.1 hInv) hcn
      have ht2 : Pres t t2 := pres_trans hq.1 hcnP.1
      try dsimp only [] at h
      cases hsi : setInnerLeafOp t2 nn (newLeafNode t k v).2 with
      | none => rw [hsi] at h; simp at h
      | some t3 =>
        rw [hsi] at h
        try dsimp only [] at h
        have ht3 : Pres t t3 :=
          pres_trans ht2 (setInnerLeafOp_pres (fresh_mono hcnP.1 hcnP.2) hsi)
        have hnnT : ∀ j : Nat, nn = some j → t.maxSnapID < j :=
          fresh_back hq.1 hcnP.2
        try dsimp only [] at h
        cases hfd : hFind (discard t3 i).heap i with
        | none => rw [hfd] at h; simp at h
        | some n2 =>
          rw [hfd] at h
          try dsimp only [] at h
          try dsimp only [] at h
          cases hil : innerLeafOf n2 with
          | some ol =>
            rw [hil] at h
            try dsimp only [] at h
            try dsimp only [] at h
            cases hfo : hFind (discard (discard t3 i) ol).heap ol with
            | none => rw [hfo] at h; simp at h
            | some n3 =>
              rw [hfo] at h
              try dsimp only [] at h
              cases n3 with
              | leaf kx vx =>
                try dsimp only [] at h
                simp only [Option.some.injEq, Prod.mk.injEq] at h
                obtain ⟨h1, h2, h3, h4⟩ := h
                subst h1
                refine ⟨pres_trans ht3 (pres_trans (discard_pres _ i) (discard_pres _ ol)), fun j hj => ?_⟩
                rw [← h2] at hj
                exact hnnT j hj
              | n4 a b c => simp at h
              | n16 a b c => simp at h
              | n48 a b c => simp at h
              | n256 a b => simp at h
          | none =>
            rw [hil] at h
            try dsimp only [] at h
            simp only [Option.some.injEq, Prod.mk.injEq] at h
            obtain ⟨h1, h2, h3, h4⟩ := h
            subst h1
            refine ⟨pres_trans ht3 (discard_pres _ i), fun j hj => ?_⟩
            rw [← h2] at hj
            exact hnnT j hj
  · rw [if_neg ho] at h
    cases hgp : getPrefix t.heap (some i) with
    | none => rw [hgp] at h; simp at h
    | some pfxList =>
      rw [hgp] at h
      try dsimp only [] at h
      try dsimp only [] at h
      by_cases hlcp : pfxList.length ≤ longestPrefix (k.drop offset) pfxList
      · rw [if_pos hlcp] at h
        cases hkg : k.get? (offset + pfxList.length) with
        | none => rw [hkg] at h; simp at h
        | some c =>
          rw [hkg] at h
          try dsimp only [] at h
          cases hfc : findChild t.heap (some i) c with
          | none => rw [hfc] at h; simp at h
          | some oc =>
            rw [hfc] at h
            try dsimp only [] at h
            cases oc with
            | some childId =>
              try dsimp only [] at h
              cases hrec : insertGo fuel t (some childId) k v (offset + pfxList.length + 1) with
              | none => rw [hrec] at h; simp at h
              | some pr =>
                rw [hrec] at h
                try dsimp only [] at h
                obtain ⟨t2, newChild, old2, ex⟩ := pr
                have hrecP := IH t (some childId) k v (offset + pfxList.length + 1)
                  t2 newChild old2 ex hInv hrec
                have ht2 : Pres t t2 := hrecP.1
                try dsimp only [] at h
                cases hcn : copyIfNeeded t2 (some i) with
                | none => rw [hcn] at h; simp at h
                | some pr2 =>
                  rw [hcn] at h
                  try dsimp only [] at h
                  obtain ⟨t3, nn⟩ := pr2
                  have hcnP := copyIfNeeded_pres (pres_inv ht2 hInv) hcn
                  have ht3 : Pres t t3 := pres_trans ht2 hcnP.1
                  try dsimp only [] at h
                  cases hrc : replaceChild t3 nn c newChild with
                  | none => rw [hrc] at h; simp at h
                  | some pr3 =>
                    rw [hrc] at h
                    try dsimp only [] at h
                    obtain ⟨t4, nn2⟩ := pr3
                    have hrcP := replaceChild_pres (fresh_mono hcnP.1 hcnP.2) hrc
                    simp only [Option.some.injEq, Prod.mk.injEq] at h
                    obtain ⟨h1, h2, h3, h4⟩ := h
                    subst h1
                    refine ⟨pres_trans ht3 hrcP.1, fun j hj => ?_⟩
                    rw [← h2] at hj
                    exact fresh_back ht3 hrcP.2 j hj
            | none =>
              try dsimp only [] at h
              have hq := newLeafNode_pres t k v hInv
              cases hcn : copyIfNeeded (newLeafNode t k v).1 (some i) with
              | none => rw [hcn] at h; simp at h
              | some pr2 =>
                rw [hcn] at h
                try dsimp only [] at h
                obtain ⟨t2, nn⟩ := pr2
                have hcnP := copyIfNeeded_pres (pres_inv hq.1 hInv) hcn
                have ht2 : Pres t t2 := pres_trans hq.1 hcnP.1
                try dsimp only [] at h
                cases hac : addChild t2 nn c (some (newLeafNode t k v).2) with
                | none => rw [hac] at h; simp at h
                | some pr3 =>
                  rw [hac] at h
                  try dsimp only [] at h
                  obtain ⟨t3, nn2⟩ := pr3
                  have hacP := addChild_pres (pres_inv ht2 hInv) (fresh_mono hcnP.1 hcnP.2) hac
                  simp only [Option.some.injEq, Prod.mk.injEq] at h
                  obtain ⟨h1, h2, h3, h4⟩ := h
                  subst h1
                  refine ⟨pres_trans (pres_trans ht2 hacP.1) (discard_pres _ i), fun j hj => ?_⟩
                  rw [← h2] at hj
                  exact fresh_back ht2 hacP.2 j hj
      · rw [if_neg hlcp] at h
        try dsimp only [] at h
        have hp4 : Pres t (newNode4 t).1 := (newNode4_pres t hInv).1
        have hsidF := newNode4_fresh t hInv
        cases hsp : setPrefixOp (newNode4 t).1 (some (newNode4 t).2)
            ((k.drop offset).take (longestPrefix (k.drop offset) pfxList)) with
        | none => rw [hsp] at h; simp at h
        | some t2 =>
          rw [hsp] at h
          try dsimp only [] at h
          have ht2 : Pres t t2 :=
            pres_trans hp4 (setPrefixOp_pres (fresh_mono hp4 hsidF) hsp)
          cases hcn : copyIfNeeded t2 (some i) with
          | none => rw [hcn] at h; simp at h
          | some pr =>
            rw [hcn] at h
            try dsimp only [] at h
            obtain ⟨t3, nn⟩ := pr
            have hcnP := copyIfNeeded_pres (pres_inv ht2 hInv) hcn
            have ht3 : Pres t t3 := pres_trans ht2 hcnP.1
            try dsimp only [] at h
            cases htr : leftTrimOp t3 nn (longestPrefix (k.drop offset) pfxList) with
            | none => rw [htr] at h; simp at h
            | some t4 =>
              rw [htr] at h
              try dsimp only [] at h
              have ht4 : Pres t t4 :=
                pres_trans ht3 (leftTrimOp_pres (fresh_mono hcnP.1 hcnP.2) htr)
              cases hpg : pfxList.get? (longestPrefix (k.drop offset) pfxList) with
              | none => rw [hpg] at h; simp at h
              | some b1 =>
                rw [hpg] at h
                try dsimp only [] at h
                have hsidF4 : ∀ j : Nat, some (newNode4 t).2 = some j → t4.maxSnapID < j :=
                  fresh_mono ht4 hsidF
                cases hac : addChild t4 (some (newNode4 t).2) b1 nn with
                | none => rw [hac] at h; simp at h
                | some pr2 =>
                  rw [hac] at h
                  try dsimp only [] at h
                  obtain ⟨t5, sRef⟩ := pr2
                  have hacP := addChild_pres (pres_inv ht4 hInv) hsidF4 hac
                  have ht5 : Pres t t5 := pres_trans ht4 hacP.1
                  try dsimp only [] at h
                  have hq := newLeafNode_pres t5 k v (pres_inv ht5 hInv)
                  have htq : Pres t (newLeafNode t5 k v).1 := pres_trans ht5 hq.1
                  cases hkg2 : k.get? (longestPrefix (k.drop offset) pfxList) with
                  | none => rw [hkg2] at h; simp at h
                  | some b2 =>
                    rw [hkg2] at h
                    try dsimp only [] at h
                    cases hac2 : addChild (newLeafNode t5 k v).1 sRef b2
                        (some (newLeafNode t5 k v).2) with
                    | none => rw [hac2] at h; simp at h
                    | some pr3 =>
                      rw [hac2] at h
                      try dsimp only [] at h
                      obtain ⟨t6, sRef2⟩ := pr3
                      have hac2P := addChild_pres (pres_inv htq hInv)
                        (fresh_mono hq.1 (fresh_mono hacP.1 hacP.2)) hac2
                      simp only [Option.some.injEq, Prod.mk.injEq] at h
                      obtain ⟨h1, h2, h3, h4⟩ := h
                      subst h1
                      refine ⟨pres_trans htq hac2P.1, fun j hj => ?_⟩
                      rw [← h2] at hj
                      exact fresh_back htq hac2P.2 j hj

/-- Core preservation lemma for `insertGo`: a successful insert never touches
heap cells with ids at or below the snapshot bound, never changes the
snapshot bound, never decreases the id counter, and the returned node
reference (when non-nil) is a fresh id above the snapshot bound. -/
theorem insertGo_pres {α : Type} :
    ∀ (fuel : Nat) (t : Txn α) (r : Option Nat) (k : List Nat) (v : α) (offset : Nat)
      (u : Txn α) (r2 : Option Nat) (old : Option α) (rep : Bool),
      t.maxSnapID ≤ t.maxRootID →
      insertGo fuel t r k v offset = some (u, r2, old, rep) →
      Pres t u ∧ ∀ j : Nat, r2 = some j → t.maxSnapID < j := by
  intro fuel
  induction fuel with
  | zero =>
    intro t r k v offset u r2 old rep hInv h
    simp [insertGo] at h
  | succ fuel IH =>
    intro t r k v offset u r2 old rep hInv h
    cases r with
    | none =>
      simp only [insertGo, Option.some.injEq, Prod.mk.injEq] at h
      obtain ⟨h1, h2, h3, h4⟩ := h
      subst h1
      have hp := newLeafNode_pres t k v hInv
      refine ⟨hp.1, fun j hj => ?_⟩
      rw [← h2] at hj
      simp only [Option.some.injEq] at hj
      have := hp.2
      omega
    | some i =>
      simp only [insertGo] at h
      cases hfind : hFind t.heap i with
      | none => rw [hfind] at h; simp at h
      | some n =>
        simp only [hfind] at h
        cases n with
        | leaf key value =>
          try dsimp only [] at h
          by_cases hkey : key = k
          · rw [if_pos hkey] at h
            simp only [Option.some.injEq, Prod.mk.injEq] at h
            obtain ⟨h1, h2, h3, h4⟩ := h
            subst h1
            have hp := newLeafNode_pres t k v hInv
            refine ⟨pres_trans hp.1 (discard_pres _ i), fun j hj => ?_⟩
            rw [← h2] at hj
            simp only [Option.some.injEq] at hj
            have := hp.2
            omega
          · rw [if_neg hkey] at h
            by_cases hguard : offset ≤ key.length ∧ offset ≤ k.length
            · rw [if_pos hguard] at h
              have hp4 : Pres t (newNode4 t).1 := (newNode4_pres t hInv).1
              have hsidF := newNode4_fresh t hInv
              cases hsp : setPrefixOp (newNode4 t).1 (some (newNode4 t).2)
                  ((k.drop offset).take (longestPrefix (key.drop offset) (k.drop offset))) with
              | none => rw [hsp] at h; simp at h
              | some t2 =>
                rw [hsp] at h
                try dsimp only [] at h
                have ht2 : Pres t t2 :=
                  pres_trans hp4 (setPrefixOp_pres (fresh_mono hp4 hsidF) hsp)
                have hInv2 := pres_inv ht2 hInv
                have hsidF2 := fresh_mono ht2 hsidF
                cases hstep1 : (if offset + longestPrefix (key.drop offset) (k.drop offset) = key.length then
                    (setInnerLeafOp t2 (some (newNode4 t).2) i).map (fun t3 => (t3, some (newNode4 t).2))
                  else
                    match key.get? (offset + longestPrefix (key.drop offset) (k.drop offset)) with
                    | none => none
                    | some b => addChild t2 (some (newNode4 t).2) b (some i)) with
                | none => rw [hstep1] at h; simp at h
                | some pr =>
                  rw [hstep1] at h
                  try dsimp only [] at h
                  obtain ⟨t3, sRef⟩ := pr
                  have hstep1P : Pres t2 t3 ∧ ∀ j : Nat, sRef = some j → t2.maxSnapID < j := by
                    by_cases hkl : offset + longestPrefix (key.drop offset) (k.drop offset) = key.length
                    · rw [if_pos hkl] at hstep1
                      cases hsi : setInnerLeafOp t2 (some (newNode4 t).2) i with
                      | none => rw [hsi] at hstep1; simp at hstep1
                      | some t3x =>
                        rw [hsi] at hstep1
                        try dsimp only [] at hstep1
                        simp only [Option.map_some', Option.some.injEq, Prod.mk.injEq] at hstep1
                        obtain ⟨ha, hb⟩ := hstep1
                        subst ha
                        refine ⟨setInnerLeafOp_pres hsidF2 hsi, fun j hj => ?_⟩
                        rw [← hb] at hj
                        exact hsidF2 j hj
                    · rw [if_neg hkl] at hstep1
                      cases hkg : key.get? (offset + longestPrefix (key.drop offset) (k.drop offset)) with
                      | none => rw [hkg] at hstep1; simp at hstep1
                      | some b =>
                        rw [hkg] at hstep1
                        try dsimp only [] at hstep1
                        exact addChild_pres hInv2 hsidF2 hstep1
                  try dsimp only [] at h
                  have ht3 : Pres t t3 := pres_trans ht2 hstep1P.1
                  have hInv3 := pres_inv ht3 hInv
                  have hq := newLeafNode_pres t3 k v hInv3
                  have htq : Pres t (newLeafNode t3 k v).1 := pres_trans ht3 hq.1
                  have hsRefq : ∀ j : Nat, sRef = some j → (newLeafNode t3 k v).1.maxSnapID < j :=
                    fresh_mono hq.1 (fresh_mono hstep1P.1 hstep1P.2)
                  by_cases hk2 : offset + longestPrefix (key.drop offset) (k.drop offset) = k.length
                  · rw [if_pos hk2] at h
                    cases hsi2 : setInnerLeafOp (newLeafNode t3 k v).1 sRef (newLeafNode t3 k v).2 with
                    | none => rw [hsi2] at h; simp at h
                    | some t5 =>
                      rw [hsi2] at h
                      try dsimp only [] at h
                      simp only [Option.some.injEq, Prod.mk.injEq] at h
                      obtain ⟨h1, h2, h3, h4⟩ := h
                      subst h1
                      have ht5 : Pres t t5 :=
                        pres_trans htq (setInnerLeafOp_pres hsRefq hsi2)
                      refine ⟨ht5, fun j hj => ?_⟩
                      rw [← h2] at hj
                      exact fresh_back ht2 hstep1P.2 j hj
                  · rw [if_neg hk2] at h
                    cases hkg2 : k.get? (offset + longestPrefix (key.drop offset) (k.drop offset)) with
                    | none => rw [hkg2] at h; simp at h
                    | some b2 =>
                      rw [hkg2] at h
                      try dsimp only [] at h
                      cases hac : addChild (newLeafNode t3 k v).1 sRef b2 (some (newLeafNode t3 k v).2) with
                      | none => rw [hac] at h; simp at h
                      | some pr2 =>
                        rw [hac] at h
                        try dsimp only [] at h
                        obtain ⟨t5, sRef2⟩ := pr2
                        simp only [Option.some.injEq, Prod.mk.injEq] at h
                        obtain ⟨h1, h2, h3, h4⟩ := h
                        subst h1
                        have hacP := addChild_pres (pres_inv htq hInv) hsRefq hac
                        refine ⟨pres_trans htq hacP.1, fun j hj => ?_⟩
                        rw [← h2] at hj
                        exact fresh_back htq hacP.2 j hj
            · rw [if_neg hguard] at h
              simp at h
        | n4 ih4 index4 children4 =>
          try dsimp only [] at h
          exact insertGo_inner_step fuel IH t i k v offset u r2 old rep hInv h
        | n16 ih4 index4 children4 =>
          try dsimp only [] at h
          exact insertGo_inner_step fuel IH t i k v offset u r2 old rep hInv h
        | n48 ih4 index4 children4 =>
          try dsimp only [] at h
          exact insertGo_inner_step fuel IH t i k v offset u r2 old rep hInv h
        | n256 ih4 children4 =>
          try dsimp only [] at h
          exact insertGo_inner_step fuel IH t i k v offset u r2 old rep hInv h


/-- Preservation lifted to `Txn.Insert`: adopting the returned root does not
touch the heap, the snapshot bound, or the id counter. -/
theorem txnInsert_pres {t u : Txn α} {k : List Nat} {v : α} {old : Option α} {rep : Bool}
    (hInv : t.maxSnapID ≤ t.maxRootID)
    (h : txnInsert t k v = some (u, old, rep)) : Pres t u := by
  simp only [txnInsert] at h
  cases hg : insertGo (k.length + 1) t t.root k v 0 with
  | none => rw [hg] at h; simp at h
  | some q =>
    rw [hg] at h
    obtain ⟨t2, newRoot, old2, rep2⟩ := q
    simp only [Option.some.injEq, Prod.mk.injEq] at h
    obtain ⟨h1, h2, h3⟩ := h
    have hp := insertGo_pres (k.length + 1) t t.root k v 0 t2 newRoot old2 rep2 hInv hg
    rw [← h1]
    exact hp.1

/-- C2 (confirmed): snapshot immutability of `Tree.Insert`.  For any heap, any
tree whose reachable node ids are bounded by its `maxID` (the allocation
discipline every tree built by this package satisfies), and any key/value,
a successful `Tree.Insert` leaves every heap cell with id at most `maxID` —
in particular every node reachable from the original root — exactly as it
was, so the old tree value is unchanged. -/
theorem claim2_snapshot_immutability {α : Type} (h : Heap α) (t1 : Tree) (k : List Nat) (v : α)
    (h2 : Heap α) (t2 : Tree) (old : Option α) (rep : Bool)
    (hbound : ∀ i : Nat, Reach h t1.root i → i ≤ t1.maxID)
    (hins : treeInsert h t1 k v = some (h2, t2, old, rep)) :
    (∀ i : Nat, i ≤ t1.maxID → hFind h2 i = hFind h i) ∧
    (∀ i : Nat, Reach h t1.root i → hFind h2 i = hFind h i) := by
  simp only [treeInsert] at hins
  cases hx : txnInsert (treeTxn h t1) k v with
  | none => rw [hx] at hins; simp at hins
  | some pr =>
    rw [hx] at hins
    obtain ⟨u, old2, rep2⟩ := pr
    simp only [Option.some.injEq, Prod.mk.injEq] at hins
    obtain ⟨hh, hrest⟩ := hins
    have hp : Pres (treeTxn h t1) u := txnInsert_pres (Nat.le_refl _) hx
    have hpre : ∀ i : Nat, i ≤ t1.maxID → hFind u.heap i = hFind h i := hp.2.2
    constructor
    · intro i hi
      rw [← hh]
      exact hpre i hi
    · intro i hr
      rw [← hh]
      exact hpre i (hbound i hr)

/-- Witness for C2: inserting "b" (value 2) into the one-leaf tree `t1C2`
over heap `hwC2` ("a" ↦ 1 at id 1) succeeds, and every heap cell with id at
most 1 — hence the old root's leaf — reads back unchanged. -/
theorem claim2_witness :
    (∀ i : Nat, i ≤ t1C2.maxID →
        hFind [(1, Node.leaf [97] 1),
               (2, Node.n4 { leaf := none, prefixLen := 0, nChildren := 2,
                             pfx := [0, 0, 0, 0, 0, 0, 0, 0, 0, 0] }
                  [97, 98, 0, 0] [some 1, some 3, none, none]),
               (3, Node.leaf [98] 2)] i = hFind hwC2 i) ∧
    (∀ i : Nat, Reach hwC2 t1C2.root i →
        hFind [(1, Node.leaf [97] 1),
               (2, Node.n4 { leaf := none, prefixLen := 0, nChildren := 2,
                             pfx := [0, 0, 0, 0, 0, 0, 0, 0, 0, 0] }
                  [97, 98, 0, 0] [some 1, some 3, none, none]),
               (3, Node.leaf [98] 2)] i = hFind hwC2 i) := by
  have hmax : t1C2.maxID = 1 := rfl
  have hroot : t1C2.root = some 1 := rfl
  have hb : ∀ i : Nat, Reach hwC2 t1C2.root i → i ≤ t1C2.maxID := by
    intro i hr
    rw [hmax]
    induction hr with
    | root a hi =>
      rw [hroot] at hi
      injection hi with he
      omega
    | step hr hf hm ih =>
      rename_i a b nn
      have ha : a = 0 ∨ a = 1 := by omega
      rcases ha with ha | ha
      · subst ha
        rw [show hFind hwC2 0 = (none : Option (Node Nat)) from rfl] at hf
        exact Option.noConfusion hf
      · subst ha
        rw [show hFind hwC2 1 = some (Node.leaf [97] (1 : Nat)) from rfl] at hf
        injection hf with he
        subst he
        simp [nodeRefs] at hm
  exact claim2_snapshot_immutability hwC2 t1C2 [98] 2
    [(1, Node.leaf [97] 1),
     (2, Node.n4 { leaf := none, prefixLen := 0, nChildren := 2,
                   pfx := [0, 0, 0, 0, 0, 0, 0, 0, 0, 0] }
        [97, 98, 0, 0] [some 1, some 3, none, none]),
     (3, Node.leaf [98] 2)]
    { root := some 2, maxID := 3, size := 1 } none false hb (by decide)

end Art
